import Mathlib

/-
Shallow embedding of the debate orchestration backend
(src/debater/backend/app): the data model (models/debate.py), the
in-memory store (storage/memory_store.py), the provider adapter
(services/llm_service.py) and the turn/adjudication orchestrator
(services/debate_service.py).

Modelling conventions:
* Python `dict[str, T]` becomes an association list with unique keys,
  with `dictLookup` / `dictSet` / `dictDelete` mirroring dict get /
  `d[k] = v` / `del d[k]`.
* The two LLM SDK network round-trips are abstracted into an oracle
  `Net` giving the outcome of each external call (success text, or an
  exception).  Everything before the network call (model resolution,
  credential checks, message preparation) is embedded from the source.
  The per-SDK request marshalling inside `_call_claude` / `_call_gpt` /
  `_call_gemini` is folded into the oracle; no claim depends on it.
* `datetime` fields (`Message.timestamp`, `DebateState.created_at`) are
  real-time values; no claim mentions them and they are omitted.
* CPython's `json.loads` is embedded as `jsonLoads` below: full JSON
  grammar (objects, arrays, strings with escapes, numbers as exact
  decimals, true/false/null), strict control-character rejection,
  last-wins duplicate keys, number syntax per CPython's NUMBER_RE.
  CPython extensions that cannot be represented here (NaN/Infinity
  constants, lone-surrogate \u escapes) are rejected instead; no claim
  or concrete input below touches them.
* Python `str` in the relevant code paths is modelled by `String`
  (operations implemented on `List Char`): `.strip()`, `.find`, `in`,
  and slicing, including the `[start:-1]` negative-index case.
* Crucially, `DebateStore.get_debate` returns the stored object itself
  (`self._debates.get(debate_id)`), not a copy, and `DebateState` /
  its `messages` list are mutated in place by `conduct_turn`.  The
  embedding reflects this aliasing by writing the mutated record into
  the store at each in-place mutation point of the source.
-/

namespace Debater

/-! ## Python dict primitives -/

/-- Python `d.get(k)`: first (hence, for dict-built lists, only) binding. -/
def dictLookup {α : Type} : List (String × α) → String → Option α
  | [], _ => none
  | (k₂, v) :: rest, k => if k₂ = k then some v else dictLookup rest k

/-- Python `d[k] = v`: replace the binding if the key is present, else append
(dicts keep insertion order). -/
def dictSet {α : Type} : List (String × α) → String → α → List (String × α)
  | [], k, v => [(k, v)]
  | (k₂, v₂) :: rest, k, v =>
      if k₂ = k then (k, v) :: rest else (k₂, v₂) :: dictSet rest k v

/-- Python `del d[k]` guarded by `k in d`: the list without the binding, plus
whether a binding was removed. -/
def dictDelete {α : Type} : List (String × α) → String → List (String × α) × Bool
  | [], _ => ([], false)
  | (k₂, v₂) :: rest, k =>
      if k₂ = k then (rest, true)
      else
        let r := dictDelete rest k
        ((k₂, v₂) :: r.1, r.2)

/-! ## Python string primitives (on `List Char`) -/

/-- Whitespace stripped by `str.strip()` (ASCII subset; the inputs in this
development contain no other Unicode whitespace). -/
def isPyWs (c : Char) : Bool :=
  c = ' ' || c = '\t' || c = '\n' || c = '\r' || c = Char.ofNat 11 || c = Char.ofNat 12

/-- Python `s.strip()` on the character list. -/
def stripChars (l : List Char) : List Char :=
  ((l.dropWhile isPyWs).reverse.dropWhile isPyWs).reverse

/-- Python `s.strip()`. -/
def pyStrip (s : String) : String := String.mk (stripChars s.data)

/-- Does `sub` occur at the head of `hay`? -/
def charsPrefix : List Char → List Char → Bool
  | [], _ => true
  | _ :: _, [] => false
  | a :: as, b :: bs => a = b && charsPrefix as bs

/-- Python `hay.find(sub)` relative to offset `i`: index of the first
occurrence, `none` for Python's `-1`. -/
def findChars : List Char → List Char → Nat → Option Nat
  | [], sub, i => if charsPrefix sub [] then some i else none
  | c :: t, sub, i =>
      if charsPrefix sub (c :: t) then some i else findChars t sub (i + 1)

/-- Python `sub in s`. -/
def containsSub (s sub : String) : Bool := (findChars s.data sub.data 0).isSome

/-! ## JSON values and `json.loads` -/

/-- An exact decimal: the value `mant / 10 ^ dexp`.  CPython gives `int` or
`float` for JSON numbers; pydantic coerces both to `float`, so one exact
numeric carrier suffices for every claim (kept as integer data so that all
definitions evaluate inside the kernel). -/
structure JNum where
  mant : Int
  dexp : Nat
deriving DecidableEq

/-- `10 ^ k` as an integer (kernel-evaluable power). -/
def pow10 (k : Nat) : Int := Int.ofNat (10 ^ k)

/-- The rational value of an exact decimal. -/
def JNum.toRat (n : JNum) : ℚ := (n.mant : ℚ) / ((10 : ℚ) ^ n.dexp)

/-- Value comparison of exact decimals by cross-multiplication
(`jnumLe a b` holds exactly when `a.toRat ≤ b.toRat`, see `jnumLe_iff`). -/
def jnumLe (a b : JNum) : Prop := a.mant * pow10 b.dexp ≤ b.mant * pow10 a.dexp

instance (a b : JNum) : Decidable (jnumLe a b) := Int.decLe _ _

/-- Embed an integer as an exact decimal. -/
def JNum.ofInt (z : Int) : JNum := ⟨z, 0⟩

/-- A parsed JSON value. -/
inductive JVal where
  | jnull
  | jbool (b : Bool)
  | jnum (n : JNum)
  | jstr (s : String)
  | jarr (elems : List JVal)
  | jobj (entries : List (String × JVal))

/-- Leading run of decimal digits. -/
def spanDigits : List Char → List Char × List Char
  | [] => ([], [])
  | c :: t =>
      if c.isDigit then
        let r := spanDigits t
        (c :: r.1, r.2)
      else ([], c :: t)

/-- Numeric value of a digit run. -/
def digitsVal (ds : List Char) : Nat :=
  ds.foldl (fun a c => a * 10 + (c.toNat - 48)) 0

/-- Hex digit value, for \uXXXX escapes. -/
def hexDigitVal (c : Char) : Option Nat :=
  if c.isDigit then some (c.toNat - 48)
  else if 'a' ≤ c && c ≤ 'f' then some (c.toNat - 97 + 10)
  else if 'A' ≤ c && c ≤ 'F' then some (c.toNat - 65 + 10)
  else none

/-- Value of a four-hex-digit escape. -/
def hexQuad (a b c d : Char) : Option Nat := do
  let x ← hexDigitVal a
  let y ← hexDigitVal b
  let z ← hexDigitVal c
  let w ← hexDigitVal d
  pure (((x * 16 + y) * 16 + z) * 16 + w)

/-- Single-character escapes of the JSON grammar. -/
def jsonEscape : Char → Option Char
  | '"' => some '"'
  | '\\' => some '\\'
  | '/' => some '/'
  | 'b' => some (Char.ofNat 8)
  | 'f' => some (Char.ofNat 12)
  | 'n' => some '\n'
  | 'r' => some '\r'
  | 't' => some '\t'
  | _ => none

/-- JSON string body after the opening quote (CPython `py_scanstring`,
strict mode: raw control characters rejected).  Surrogate pairs in \u
escapes are combined; a lone surrogate (which CPython would keep) has no
`Char` representation and is rejected — no input below contains one. -/
def scanJString (acc : List Char) : List Char → Option (String × List Char)
  | '"' :: rest => some (String.mk acc.reverse, rest)
  | '\\' :: 'u' :: a :: b :: c :: d :: rest =>
      match hexQuad a b c d with
      | none => none
      | some n =>
          if 0xD800 ≤ n ∧ n ≤ 0xDBFF then
            match rest with
            | '\\' :: 'u' :: e :: f :: g :: h :: rest₂ =>
                match hexQuad e f g h with
                | some m =>
                    if 0xDC00 ≤ m ∧ m ≤ 0xDFFF then
                      scanJString
                        (Char.ofNat (0x10000 + (n - 0xD800) * 0x400 + (m - 0xDC00)) :: acc)
                        rest₂
                    else none
                | none => none
            | _ => none
          else if 0xDC00 ≤ n ∧ n ≤ 0xDFFF then none
          else scanJString (Char.ofNat n :: acc) rest
  | '\\' :: e :: rest =>
      match jsonEscape e with
      | some ch => scanJString (ch :: acc) rest
      | none => none
  | c :: rest => if c.toNat < 0x20 then none else scanJString (c :: acc) rest
  | [] => none

/-- Fraction, exponent and value assembly of a JSON number, once the sign
and mandatory integer part are known. -/
def scanJNumTail (neg : Bool) (intDs : List Char) (rest₁ : List Char) : JNum × List Char :=
  let fr : List Char × List Char := match rest₁ with
    | '.' :: r₂ =>
        let d := spanDigits r₂
        if d.1.isEmpty then ([], rest₁) else (d.1, d.2)
    | _ => ([], rest₁)
  let fracDs := fr.1
  let rest₂ := fr.2
  let ex : Option (Bool × List Char) × List Char := match rest₂ with
    | e :: r₂ =>
        if e = 'e' ∨ e = 'E' then
          match r₂ with
          | '-' :: r₃ =>
              let d := spanDigits r₃
              if d.1.isEmpty then (none, rest₂) else (some (true, d.1), d.2)
          | '+' :: r₃ =>
              let d := spanDigits r₃
              if d.1.isEmpty then (none, rest₂) else (some (false, d.1), d.2)
          | _ =>
              let d := spanDigits r₂
              if d.1.isEmpty then (none, rest₂) else (some (false, d.1), d.2)
        else (none, rest₂)
    | _ => (none, rest₂)
  let base : Int := Int.ofNat (digitsVal (intDs ++ fracDs))
  let signed : Int := if neg then -base else base
  let n : JNum := match ex.1 with
    | none => ⟨signed, fracDs.length⟩
    | some (true, ds) => ⟨signed, fracDs.length + digitsVal ds⟩
    | some (false, ds) => ⟨signed * pow10 (digitsVal ds), fracDs.length⟩
  (n, ex.2)

/-- JSON number per CPython's NUMBER_RE
`(-?(?:0|[1-9]\d*))(\.\d+)?([eE][-+]?\d+)?`: the integer part is mandatory
(`0` or a nonzero-led digit run); fraction and exponent attach only when
complete, otherwise the number ends before them. -/
def scanJNumber (cs : List Char) : Option (JNum × List Char) :=
  let sgn : Bool × List Char := match cs with
    | '-' :: r => (true, r)
    | _ => (false, cs)
  match sgn.2 with
  | [] => none
  | c₀ :: r₀ =>
      if c₀ = '0' then some (scanJNumTail sgn.1 [c₀] r₀)
      else if c₀.isDigit then
        let d := spanDigits r₀
        some (scanJNumTail sgn.1 (c₀ :: d.1) d.2)
      else none

/-- JSON insignificant whitespace. -/
def jsonSkipWs (cs : List Char) : List Char :=
  cs.dropWhile (fun c => c = ' ' || c = '\t' || c = '\n' || c = '\r')

mutual

/-- One JSON value at the head of the input (CPython scanner).  `fuel`
only bounds nesting work; `jsonLoads` supplies enough for any input (CPython
instead hits its recursion limit near depth 1000 — an uncaught
RecursionError — which no claim depends on). -/
def scanJValue : Nat → List Char → Option (JVal × List Char)
  | 0, _ => none
  | _ + 1, [] => none
  | fuel + 1, c :: rest =>
      if c = '"' then
        match scanJString [] rest with
        | some (s, r) => some (.jstr s, r)
        | none => none
      else if c = '{' then
        match jsonSkipWs rest with
        | '}' :: r => some (.jobj [], r)
        | cs₁ => scanJMembers fuel cs₁ []
      else if c = '[' then
        match jsonSkipWs rest with
        | ']' :: r => some (.jarr [], r)
        | cs₁ => scanJItems fuel cs₁ []
      else if c = 't' then
        match rest with
        | 'r' :: 'u' :: 'e' :: r => some (.jbool true, r)
        | _ => none
      else if c = 'f' then
        match rest with
        | 'a' :: 'l' :: 's' :: 'e' :: r => some (.jbool false, r)
        | _ => none
      else if c = 'n' then
        match rest with
        | 'u' :: 'l' :: 'l' :: r => some (.jnull, r)
        | _ => none
      else
        match scanJNumber (c :: rest) with
        | some (q, r) => some (.jnum q, r)
        | none => none

/-- Members of a JSON object after `{` + whitespace (nonempty case).
Duplicate keys: last binding wins, as in `dict(pairs)`. -/
def scanJMembers : Nat → List Char → List (String × JVal) → Option (JVal × List Char)
  | 0, _, _ => none
  | fuel + 1, cs, acc =>
      match cs with
      | '"' :: rest =>
          match scanJString [] rest with
          | none => none
          | some (k, r₁) =>
              match jsonSkipWs r₁ with
              | ':' :: r₂ =>
                  match scanJValue fuel (jsonSkipWs r₂) with
                  | none => none
                  | some (v, r₃) =>
                      let acc₂ := dictSet acc k v
                      match jsonSkipWs r₃ with
                      | ',' :: r₄ => scanJMembers fuel (jsonSkipWs r₄) acc₂
                      | '}' :: r₄ => some (.jobj acc₂, r₄)
                      | _ => none
              | _ => none
      | _ => none

/-- Elements of a JSON array after `[` + whitespace (nonempty case). -/
def scanJItems : Nat → List Char → List JVal → Option (JVal × List Char)
  | 0, _, _ => none
  | fuel + 1, cs, acc =>
      match scanJValue fuel cs with
      | none => none
      | some (v, r₁) =>
          match jsonSkipWs r₁ with
          | ',' :: r₂ => scanJItems fuel (jsonSkipWs r₂) (acc ++ [v])
          | ']' :: r₂ => some (.jarr (acc ++ [v]), r₂)
          | _ => none

end

/-- CPython `json.loads`: one value, surrounded by optional whitespace,
nothing after it.  `none` is `json.JSONDecodeError`. -/
def jsonLoads (s : String) : Option JVal :=
  match scanJValue (2 * s.length + 2) (jsonSkipWs s.data) with
  | none => none
  | some (v, rest) => if jsonSkipWs rest = [] then some v else none

/-! ## Data model — `app/models/debate.py`

`Message.timestamp` and `DebateState.created_at` (`datetime.utcnow()`)
are omitted: real-time values, used by no claim. -/

/-- `Message`: `role` is `Literal["for_agent", "against_agent"]` in the
source (kept as `String`; the orchestrator only ever appends those two). -/
structure Message where
  role : String
  content : String
deriving DecidableEq

/-- `DebateState`: `status` is `Literal["created", "in_progress",
"completed"]`; defaults are `status="created"`, `messages=[]`,
`current_turn=0`, `max_turns=5`. -/
structure DebateState where
  debate_id : String
  proposition : String
  for_model : String
  against_model : String
  status : String
  messages : List Message
  current_turn : Nat
  max_turns : Nat
deriving DecidableEq

/-- `AdjudicationResult`: `winner` is `Literal["for", "against", "tie"]`;
the two scores are `float` fields carried as exact decimals. -/
structure AdjudicationResult where
  winner : String
  for_score : JNum
  against_score : JNum
  reasoning : String
deriving DecidableEq

/-- The `DebateState(...)` construction performed by the `POST
/debate/create` route (`routes/debate.py`): explicit identifier,
proposition and models; everything else from the pydantic defaults. -/
def newDebate (id proposition for_model against_model : String) : DebateState :=
  ⟨id, proposition, for_model, against_model, "created", [], 0, 5⟩

/-! ## Debate record store — `app/storage/memory_store.py` -/

/-- `DebateStore._debates : Dict[str, DebateState]`. -/
abbrev Store := List (String × DebateState)

/-- `get_debate`: `self._debates.get(debate_id)`.  Returns the stored
object itself — callers alias the canonical record. -/
def get_debate (store : Store) (debate_id : String) : Option DebateState :=
  dictLookup store debate_id

/-- `create_debate`: `self._debates[debate.debate_id] = debate`. -/
def create_debate (store : Store) (debate : DebateState) : Store :=
  dictSet store debate.debate_id debate

/-- `update_debate`: `self._debates[debate.debate_id] = debate` — no
existence check; inserts when the identifier is absent. -/
def update_debate (store : Store) (debate : DebateState) : Store :=
  dictSet store debate.debate_id debate

/-- `list_debates`: `list(self._debates.values())` (insertion order). -/
def list_debates (store : Store) : List DebateState := store.map Prod.snd

/-- `delete_debate`: removes the binding when present; returns whether a
record was removed. -/
def delete_debate (store : Store) (debate_id : String) : Store × Bool :=
  dictDelete store debate_id

/-! ## Provider adapter — `app/services/llm_service.py` -/

def CLAUDE_MODELS : List String := ["claude-sonnet-4-5-20250929", "claude-3-5-sonnet-20241022"]

def GPT_MODELS : List String := ["gpt-4o", "gpt-4-turbo"]

def GEMINI_MODELS : List String := ["gemini-2.0-flash-exp", "gemini-1.5-pro"]

def ALL_MODELS : List String := CLAUDE_MODELS ++ GPT_MODELS ++ GEMINI_MODELS

/-- The three backend families. -/
inductive Provider where
  | claude
  | gpt
  | gemini
deriving DecidableEq

/-- `LLMService._get_provider`: static membership lookup, in source order;
`none` is the `ValueError(f"Unknown model: ...")` branch. -/
def get_provider (model : String) : Option Provider :=
  if model ∈ CLAUDE_MODELS then some .claude
  else if model ∈ GPT_MODELS then some .gpt
  else if model ∈ GEMINI_MODELS then some .gemini
  else none

/-- One entry of the chat-format message lists
(`{"role": ..., "content": ...}` dicts). -/
structure ChatMsg where
  role : String
  content : String
deriving DecidableEq

/-- Outcome oracle for the external SDK round-trip of `_call_claude` /
`_call_gpt` / `_call_gemini`: given the resolved provider, the model, the
system prompt and the prepared messages, either the generated text or an
exception (network, quota, malformed backend response).  The SDK-specific
request marshalling inside those functions is absorbed here. -/
def Net : Type := Provider → String → String → List ChatMsg → Except Unit String

/-- Per-request credential mapping (`api_keys: Dict[str, str]`). -/
abbrev ApiKeys := List (String × String)

/-- Python truthiness test `if not api_key:` on `dict.get`'s result:
`None` and the empty string are falsy. -/
def isFalsyKey : Option String → Bool
  | none => true
  | some s => s = ""

/-- Errors surfaced by `LLMService.generate_response`. -/
inductive LLMError where
  | unknownModel (model : String)
  | missingCredential (provider : Provider)
  | providerError
deriving DecidableEq

/-- `LLMService.generate_response`: resolves the provider (raising
`UnknownModel` before any network activity), then the chosen `_call_*`
checks its credential (`MissingCredential`) and performs the external call
(failure is `ProviderError`). -/
def generate_response (net : Net) (model system_prompt : String)
    (messages : List ChatMsg) (api_keys : ApiKeys) : Except LLMError String :=
  match get_provider model with
  | none => .error (.unknownModel model)
  | some p =>
      let keyName := match p with
        | .claude => "anthropic"
        | .gpt => "openai"
        | .gemini => "gemini"
      if isFalsyKey (dictLookup api_keys keyName) then .error (.missingCredential p)
      else
        match net p model system_prompt messages with
        | .ok text => .ok text
        | .error _ => .error .providerError

/-! ## Debate service — `app/services/debate_service.py` -/

/-- `DebateService._get_system_prompt`. -/
def get_system_prompt (position proposition : String) : String :=
  if position = "for" then
    "You are participating in a formal debate. Your role is to argue FOR the following proposition:\n\n\"" ++
      proposition ++
      "\"\n\nProvide clear, logical arguments supporting this position. Be persuasive but respectful. Keep your responses concise (2-3 paragraphs max). Address counterarguments when raised by your opponent."
  else
    "You are participating in a formal debate. Your role is to argue AGAINST the following proposition:\n\n\"" ++
      proposition ++
      "\"\n\nProvide clear, logical arguments opposing this position. Be persuasive but respectful. Keep your responses concise (2-3 paragraphs max). Address counterarguments when raised by your opponent."

/-- `DebateService._get_adjudicator_prompt`. -/
def get_adjudicator_prompt (proposition : String) (messages : List Message) : String :=
  let transcript := String.intercalate "\n\n"
    (messages.map (fun m =>
      (if m.role = "for_agent" then "FOR" else "AGAINST") ++ ": " ++ m.content))
  "You are an expert debate adjudicator. You have been asked to evaluate the following debate on the proposition:\n\n\"" ++
    proposition ++
    "\"\n\nDEBATE TRANSCRIPT:\n" ++ transcript ++
    "\n\nPlease evaluate this debate and provide your judgment in the following JSON format:\n\x7b\n    \"winner\": \"for|against|tie\",\n    \"for_score\": <score from 0-100>,\n    \"against_score\": <score from 0-100>,\n    \"reasoning\": \"<detailed explanation of your decision>\"\n\x7d\n\nEvaluate based on:\n- Strength and logic of arguments\n- Use of evidence and examples\n- Rebuttal effectiveness\n- Clarity and persuasiveness\n- Overall coherence\n\nRespond ONLY with valid JSON, nothing else."

/-- `DebateService._prepare_messages_for_agent`: the agent's own prior
messages become `assistant` turns, the opponent's become `user` turns,
in order. -/
def prepare_messages_for_agent (messages : List Message) (agent_role : String) : List ChatMsg :=
  messages.map (fun m =>
    if m.role = agent_role then ⟨"assistant", m.content⟩ else ⟨"user", m.content⟩)

/-- Errors surfaced by `DebateService.conduct_turn` (`ValueError`s for the
two precondition failures, plus whatever `generate_response` raised). -/
inductive DebateError where
  | notFound (debate_id : String)
  | alreadyCompleted
  | llm (e : LLMError)
deriving DecidableEq

/-- The `if debate.status == "created": debate.status = "in_progress"`
in-place mutation. -/
def advanceStatus (d : DebateState) : DebateState :=
  if d.status = "created" then { d with status := "in_progress" } else d

/-- The `debate.messages.append(...)` in-place mutation. -/
def appendMsg (d : DebateState) (m : Message) : DebateState :=
  { d with messages := d.messages ++ [m] }

/-- The `debate.current_turn += 1` increment followed by the completion
check `if debate.current_turn >= debate.max_turns` (on the incremented
counter). -/
def finishTurn (d : DebateState) : DebateState :=
  if d.max_turns ≤ d.current_turn + 1 then
    { d with current_turn := d.current_turn + 1, status := "completed" }
  else { d with current_turn := d.current_turn + 1 }

/-- `DebateService.conduct_turn`.  `get_debate` hands back the stored
object itself, and the source mutates it in place, so each mutation is
immediately visible through the store: the embedding writes the record
back at key `debate_id` at every mutation point (these `dictSet`s are the
aliasing, not store calls).  Only the final `update_debate` is an actual
store call — keyed, like the source, by the record's own `debate_id`
field. -/
def conduct_turn (net : Net) (store : Store) (debate_id : String)
    (api_keys : ApiKeys) : Store × Except DebateError DebateState :=
  match get_debate store debate_id with
  | none => (store, .error (.notFound debate_id))
  | some debate =>
      if debate.status = "completed" then (store, .error .alreadyCompleted)
      else
        let d₁ := advanceStatus debate
        let store₁ := dictSet store debate_id d₁
        match generate_response net d₁.for_model
            (get_system_prompt "for" d₁.proposition)
            (prepare_messages_for_agent d₁.messages "for_agent") api_keys with
        | .error e => (store₁, .error (.llm e))
        | .ok for_response =>
            let d₂ := appendMsg d₁ ⟨"for_agent", for_response⟩
            let store₂ := dictSet store₁ debate_id d₂
            match generate_response net d₂.against_model
                (get_system_prompt "against" d₂.proposition)
                (prepare_messages_for_agent d₂.messages "against_agent") api_keys with
            | .error e => (store₂, .error (.llm e))
            | .ok against_response =>
                let d₃ := finishTurn (appendMsg d₂ ⟨"against_agent", against_response⟩)
                let store₃ := dictSet store₂ debate_id d₃
                (update_debate store₃ d₃, .ok d₃)

/-- Outcome of the response-parsing block of `adjudicate_debate`
(lines 174–192 of `debate_service.py`). -/
inductive AdjOutcome where
  | ok (r : AdjudicationResult)
  | parseError (raw : String)
  | uncaughtError
deriving DecidableEq

/-- The fenced-block extraction of `adjudicate_debate`: prefer a
```` ```json ```` marker, else a bare ```` ``` ```` marker; slice from
after the marker to the next ```` ``` ```` — Python's `find` returns `-1`
when there is no closing marker, and `text[start:-1]` then drops exactly
the final character; `.strip()` the slice.  No marker: the text as is. -/
def extractChars (rt : List Char) : List Char :=
  match findChars rt ("```json".data) 0 with
  | some idx =>
      let start := idx + 7
      let rest := rt.drop start
      match findChars rest ("```".data) 0 with
      | some j => stripChars (rest.take j)
      | none => stripChars (rest.take (rt.length - 1 - start))
  | none =>
      match findChars rt ("```".data) 0 with
      | some idx =>
          let start := idx + 3
          let rest := rt.drop start
          match findChars rest ("```".data) 0 with
          | some j => stripChars (rest.take j)
          | none => stripChars (rest.take (rt.length - 1 - start))
      | none => rt

/-- The payload handed to `json.loads`: `response.strip()`, then the
fenced-block extraction. -/
def adjPayload (response : String) : String :=
  String.mk (extractChars (stripChars response.data))

/-- The `AdjudicationResult(**result_dict)` pydantic construction: all
four fields required, `winner` restricted to its literal values, scores
numeric, reasoning a string.  `none` is an uncaught exception: a pydantic
`ValidationError` (missing/ill-typed field, bad literal) or a `TypeError`
(payload not an object) — neither is `json.JSONDecodeError` nor
`KeyError`, so the `except` clause of the source does not catch them.
(pydantic additionally coerces numeric *strings* to float in lax mode;
that acceptance path is not modelled and no theorem below relies on a
string-typed score.) -/
def validateAdjudication (j : JVal) : Option AdjudicationResult :=
  match j with
  | .jobj entries =>
      match dictLookup entries "winner", dictLookup entries "for_score",
          dictLookup entries "against_score", dictLookup entries "reasoning" with
      | some (.jstr w), some (.jnum fs), some (.jnum as), some (.jstr r) =>
          if w = "for" ∨ w = "against" ∨ w = "tie" then some ⟨w, fs, as, r⟩ else none
      | _, _, _, _ => none
  | _ => none

/-- The `try`-block of `adjudicate_debate` applied to the model's
response: extraction, `json.loads`, pydantic construction.
`parseError` is the caught `json.JSONDecodeError` path — the re-raised
`ValueError` ("AdjudicationParseError") carries the raw response text.
`uncaughtError` is a pydantic `ValidationError` / `TypeError` escaping
the `except (json.JSONDecodeError, KeyError)` clause uncaught. -/
def parseAdjudicationResponse (response : String) : AdjOutcome :=
  match jsonLoads (adjPayload response) with
  | none => .parseError response
  | some j =>
      match validateAdjudication j with
      | some r => .ok r
      | none => .uncaughtError

/-- Errors surfaced by `DebateService.adjudicate_debate`. -/
inductive AdjError where
  | notFound (debate_id : String)
  | notCompleted
  | llm (e : LLMError)
  | parseFailure (raw : String)
  | validationFailure
deriving DecidableEq

/-- The fixed judge system prompt of `adjudicate_debate`. -/
def adjSystemPrompt : String :=
  "You are an expert debate adjudicator. Respond only with valid JSON."

/-- `DebateService.adjudicate_debate`: load (NotFound), status
precondition (NotCompleted), prompt construction, one provider call, then
response parsing.  It performs no store write. -/
def adjudicate_debate (net : Net) (store : Store)
    (debate_id adjudicator_model : String) (api_keys : ApiKeys) :
    Except AdjError AdjudicationResult :=
  match get_debate store debate_id with
  | none => .error (.notFound debate_id)
  | some debate =>
      if debate.status = "completed" then
        let prompt := get_adjudicator_prompt debate.proposition debate.messages
        match generate_response net adjudicator_model adjSystemPrompt
            [⟨"user", prompt⟩] api_keys with
        | .error e => .error (.llm e)
        | .ok response =>
            match parseAdjudicationResponse response with
            | .ok r => .ok r
            | .parseError raw => .error (.parseFailure raw)
            | .uncaughtError => .error .validationFailure
      else .error .notCompleted

/-! ## Iterated turns (the `while debate.status != "completed"` loop of the
`/start` route, stopping early on the first failed turn) -/

/-- Run one `conduct_turn` per oracle in `nets`, threading the store;
`true` iff every call completed successfully. -/
def runDebate (nets : List Net) (api_keys : ApiKeys) (debate_id : String)
    (store : Store) : Store × Bool :=
  match nets with
  | [] => (store, true)
  | net :: rest =>
      let r := conduct_turn net store debate_id api_keys
      match r.2 with
      | .ok _ => runDebate rest api_keys debate_id r.1
      | .error _ => (r.1, false)

/-! ## Invariant vocabulary used by the claims -/

/-- Strict role alternation, next expected role `expected`. -/
def altChk (expected : String) : List Message → Bool
  | [] => true
  | m :: rest =>
      (m.role = expected : Bool) &&
        altChk (if expected = "for_agent" then "against_agent" else "for_agent") rest

/-- Rank of a status in the `created → in_progress → completed` order. -/
def statusRank (s : String) : Nat :=
  if s = "in_progress" then 1 else if s = "completed" then 2 else 0

/-- Store well-formedness: every record sits under its own identifier as
key (maintained by `create_debate` / `update_debate` / the orchestrator,
which key all writes by the record's `debate_id`). -/
def StoreWF (store : Store) : Prop :=
  ∀ k d, dictLookup store k = some d → d.debate_id = k

/-! ## Concrete fixtures for witnesses and counterexamples -/

/-- An oracle answering every call with the same text. -/
def netConst (t : String) : Net := fun _ _ _ _ => .ok t

/-- An oracle whose Claude backend succeeds and whose other backends
raise: makes the FOR call succeed and the AGAINST call fail. -/
def netForOnly : Net := fun p _ _ _ =>
  match p with
  | .claude => .ok "A"
  | _ => .error ()

/-- An oracle failing every call. -/
def netFail : Net := fun _ _ _ _ => .error ()

/-- A freshly created debate between a Claude FOR agent and a GPT
AGAINST agent. -/
def testDebate : DebateState :=
  newDebate "d1" "P" "claude-sonnet-4-5-20250929" "gpt-4o"

/-- The same debate in completed state with a two-message transcript. -/
def testCompletedDebate : DebateState :=
  ⟨"d1", "P", "claude-sonnet-4-5-20250929", "gpt-4o", "completed",
    [⟨"for_agent", "A"⟩, ⟨"against_agent", "B"⟩], 1, 1⟩

/-- Credentials for all three backends. -/
def testKeys : ApiKeys := [("anthropic", "ka"), ("openai", "kb"), ("gemini", "kc")]

/-- The spec's example adjudication payload. -/
def examplePayload : String :=
  "\x7b\"winner\": \"for\", \"for_score\": 80, \"against_score\": 40, \"reasoning\": \"clear wins\"\x7d"

/-- The parsed form of `examplePayload`. -/
def exampleResult : AdjudicationResult :=
  ⟨"for", ⟨80, 0⟩, ⟨40, 0⟩, "clear wins"⟩

/-- A four-field payload whose scores lie outside 0–100. -/
def outOfRangePayload : String :=
  "\x7b\"winner\": \"for\", \"for_score\": 150, \"against_score\": -5, \"reasoning\": \"r\"\x7d"

/-- A payload carrying only `winner`. -/
def missingFieldPayload : String := "\x7b\"winner\": \"for\"\x7d"

/-- A response that opens a fence, never closes it, and still parses:
`text[start:-1]` drops only the final (redundant) brace. -/
def sneakyResponse : String :=
  "```json\x7b\"winner\": \"tie\", \"for_score\": 0, \"against_score\": 0, \"reasoning\": \"x\"\x7d\x7d"

/-- The backtick character (as a code point, to keep fence reasoning
readable). -/
def tickChar : Char := Char.ofNat 96

/-- The bare fence marker as characters. -/
def tickList : List Char := [tickChar, tickChar, tickChar]

/-- The debate record produced by one successful turn from `d` with the
two generated texts. -/
def turnResult (d : DebateState) (forText againstText : String) : DebateState :=
  finishTurn (appendMsg (appendMsg (advanceStatus d) ⟨"for_agent", forText⟩)
    ⟨"against_agent", againstText⟩)

/-- A debate-record predicate preserved by every successful turn. -/
def TurnClosed (P : DebateState → Prop) : Prop :=
  ∀ d ft a₂, P d → ¬ d.status = "completed" → P (turnResult d ft a₂)

/-! # Lemmas and theorems -/

/-! ## Dict lemmas -/

theorem dictLookup_dictSet_self {α : Type} (s : List (String × α)) (k : String) (v : α) :
    dictLookup (dictSet s k v) k = some v := by
  induction s with
  | nil => simp [dictSet, dictLookup]
  | cons hd tl ih =>
      obtain ⟨k₂, v₂⟩ := hd
      by_cases h : k₂ = k
      · simp [dictSet, dictLookup, h]
      · simp [dictSet, dictLookup, h, ih]

theorem dictLookup_dictSet_ne {α : Type} (s : List (String × α)) (k k₂ : String) (v : α)
    (h : ¬ k₂ = k) : dictLookup (dictSet s k v) k₂ = dictLookup s k₂ := by
  have h₂ : ¬ k = k₂ := fun hk => h hk.symm
  induction s with
  | nil => simp [dictSet, dictLookup, h₂]
  | cons hd tl ih =>
      obtain ⟨k₃, v₃⟩ := hd
      by_cases h₃ : k₃ = k
      · subst h₃
        simp [dictSet, dictLookup, h₂]
      · simp [dictSet, dictLookup, h₃, ih]

theorem dictSet_dictSet {α : Type} (s : List (String × α)) (k : String) (a b : α) :
    dictSet (dictSet s k a) k b = dictSet s k b := by
  induction s with
  | nil => simp [dictSet]
  | cons hd tl ih =>
      obtain ⟨k₂, v₂⟩ := hd
      by_cases h : k₂ = k <;> simp [dictSet, h, ih]

/-! ## Record-mutation field lemmas -/

@[simp] theorem advanceStatus_debate_id (d : DebateState) :
    (advanceStatus d).debate_id = d.debate_id := by
  unfold advanceStatus; split <;> rfl

@[simp] theorem advanceStatus_proposition (d : DebateState) :
    (advanceStatus d).proposition = d.proposition := by
  unfold advanceStatus; split <;> rfl

@[simp] theorem advanceStatus_for_model (d : DebateState) :
    (advanceStatus d).for_model = d.for_model := by
  unfold advanceStatus; split <;> rfl

@[simp] theorem advanceStatus_against_model (d : DebateState) :
    (advanceStatus d).against_model = d.against_model := by
  unfold advanceStatus; split <;> rfl

@[simp] theorem advanceStatus_messages (d : DebateState) :
    (advanceStatus d).messages = d.messages := by
  unfold advanceStatus; split <;> rfl

@[simp] theorem advanceStatus_current_turn (d : DebateState) :
    (advanceStatus d).current_turn = d.current_turn := by
  unfold advanceStatus; split <;> rfl

@[simp] theorem advanceStatus_max_turns (d : DebateState) :
    (advanceStatus d).max_turns = d.max_turns := by
  unfold advanceStatus; split <;> rfl

theorem advanceStatus_status (d : DebateState) :
    (advanceStatus d).status = if d.status = "created" then "in_progress" else d.status := by
  unfold advanceStatus; split <;> simp [*]

@[simp] theorem appendMsg_debate_id (d : DebateState) (m : Message) :
    (appendMsg d m).debate_id = d.debate_id := rfl

@[simp] theorem appendMsg_proposition (d : DebateState) (m : Message) :
    (appendMsg d m).proposition = d.proposition := rfl

@[simp] theorem appendMsg_for_model (d : DebateState) (m : Message) :
    (appendMsg d m).for_model = d.for_model := rfl

@[simp] theorem appendMsg_against_model (d : DebateState) (m : Message) :
    (appendMsg d m).against_model = d.against_model := rfl

@[simp] theorem appendMsg_messages (d : DebateState) (m : Message) :
    (appendMsg d m).messages = d.messages ++ [m] := rfl

@[simp] theorem appendMsg_current_turn (d : DebateState) (m : Message) :
    (appendMsg d m).current_turn = d.current_turn := rfl

@[simp] theorem appendMsg_max_turns (d : DebateState) (m : Message) :
    (appendMsg d m).max_turns = d.max_turns := rfl

@[simp] theorem appendMsg_status (d : DebateState) (m : Message) :
    (appendMsg d m).status = d.status := rfl

@[simp] theorem finishTurn_debate_id (d : DebateState) :
    (finishTurn d).debate_id = d.debate_id := by
  unfold finishTurn; split <;> rfl

@[simp] theorem finishTurn_proposition (d : DebateState) :
    (finishTurn d).proposition = d.proposition := by
  unfold finishTurn; split <;> rfl

@[simp] theorem finishTurn_for_model (d : DebateState) :
    (finishTurn d).for_model = d.for_model := by
  unfold finishTurn; split <;> rfl

@[simp] theorem finishTurn_against_model (d : DebateState) :
    (finishTurn d).against_model = d.against_model := by
  unfold finishTurn; split <;> rfl

@[simp] theorem finishTurn_messages (d : DebateState) :
    (finishTurn d).messages = d.messages := by
  unfold finishTurn; split <;> rfl

@[simp] theorem finishTurn_current_turn (d : DebateState) :
    (finishTurn d).current_turn = d.current_turn + 1 := by
  unfold finishTurn; split <;> rfl

@[simp] theorem finishTurn_max_turns (d : DebateState) :
    (finishTurn d).max_turns = d.max_turns := by
  unfold finishTurn; split <;> rfl

theorem finishTurn_status (d : DebateState) :
    (finishTurn d).status =
      if d.max_turns ≤ d.current_turn + 1 then "completed" else d.status := by
  unfold finishTurn; split <;> simp_all

/-! ## `conduct_turn` characterization -/

theorem conduct_turn_notFound (net : Net) (store : Store) (id : String) (keys : ApiKeys)
    (h : get_debate store id = none) :
    conduct_turn net store id keys = (store, .error (.notFound id)) := by
  simp [conduct_turn, h]

theorem conduct_turn_completed (net : Net) (store : Store) (id : String) (keys : ApiKeys)
    (d : DebateState) (h : get_debate store id = some d) (h₂ : d.status = "completed") :
    conduct_turn net store id keys = (store, .error .alreadyCompleted) := by
  simp [conduct_turn, h, h₂]

theorem conduct_turn_forFail (net : Net) (store : Store) (id : String) (keys : ApiKeys)
    (d : DebateState) (e : LLMError)
    (h : get_debate store id = some d) (h₂ : ¬ d.status = "completed")
    (h₃ : generate_response net d.for_model (get_system_prompt "for" d.proposition)
      (prepare_messages_for_agent d.messages "for_agent") keys = .error e) :
    conduct_turn net store id keys = (dictSet store id (advanceStatus d), .error (.llm e)) := by
  simp [conduct_turn, h, h₂, h₃]

theorem conduct_turn_againstFail (net : Net) (store : Store) (id : String) (keys : ApiKeys)
    (d : DebateState) (ft : String) (e : LLMError)
    (h : get_debate store id = some d) (h₂ : ¬ d.status = "completed")
    (h₃ : generate_response net d.for_model (get_system_prompt "for" d.proposition)
      (prepare_messages_for_agent d.messages "for_agent") keys = .ok ft)
    (h₄ : generate_response net d.against_model (get_system_prompt "against" d.proposition)
      (prepare_messages_for_agent (d.messages ++ [⟨"for_agent", ft⟩]) "against_agent") keys
      = .error e) :
    conduct_turn net store id keys =
      (dictSet store id (appendMsg (advanceStatus d) ⟨"for_agent", ft⟩), .error (.llm e)) := by
  simp [conduct_turn, h, h₂, h₃, h₄, dictSet_dictSet]

theorem conduct_turn_ok_eq (net : Net) (store : Store) (id : String) (keys : ApiKeys)
    (d : DebateState) (ft a₂ : String)
    (h : get_debate store id = some d) (h₂ : ¬ d.status = "completed")
    (h₃ : generate_response net d.for_model (get_system_prompt "for" d.proposition)
      (prepare_messages_for_agent d.messages "for_agent") keys = .ok ft)
    (h₄ : generate_response net d.against_model (get_system_prompt "against" d.proposition)
      (prepare_messages_for_agent (d.messages ++ [⟨"for_agent", ft⟩]) "against_agent") keys
      = .ok a₂) :
    conduct_turn net store id keys =
      (update_debate (dictSet store id (turnResult d ft a₂)) (turnResult d ft a₂),
        .ok (turnResult d ft a₂)) := by
  simp [conduct_turn, h, h₂, h₃, h₄, dictSet_dictSet, turnResult]

theorem conduct_turn_ok_inv (net : Net) (store : Store) (id : String) (keys : ApiKeys)
    (store₂ : Store) (d₃ : DebateState)
    (h : conduct_turn net store id keys = (store₂, .ok d₃)) :
    ∃ d ft a₂, get_debate store id = some d ∧ ¬ d.status = "completed" ∧
      generate_response net d.for_model (get_system_prompt "for" d.proposition)
        (prepare_messages_for_agent d.messages "for_agent") keys = .ok ft ∧
      generate_response net d.against_model (get_system_prompt "against" d.proposition)
        (prepare_messages_for_agent (d.messages ++ [⟨"for_agent", ft⟩]) "against_agent") keys
        = .ok a₂ ∧
      d₃ = turnResult d ft a₂ ∧
      store₂ = update_debate (dictSet store id d₃) d₃ := by
  rcases hget : get_debate store id with _ | d
  · rw [conduct_turn_notFound net store id keys hget] at h
    exact absurd (congrArg Prod.snd h) (by simp)
  · by_cases hst : d.status = "completed"
    · rw [conduct_turn_completed net store id keys d hget hst] at h
      exact absurd (congrArg Prod.snd h) (by simp)
    · rcases hfor : generate_response net d.for_model (get_system_prompt "for" d.proposition)
          (prepare_messages_for_agent d.messages "for_agent") keys with e | ft
      · rw [conduct_turn_forFail net store id keys d e hget hst hfor] at h
        exact absurd (congrArg Prod.snd h) (by simp)
      · rcases hag : generate_response net d.against_model
            (get_system_prompt "against" d.proposition)
            (prepare_messages_for_agent (d.messages ++ [⟨"for_agent", ft⟩]) "against_agent")
            keys with e | a₂
        · rw [conduct_turn_againstFail net store id keys d ft e hget hst hfor hag] at h
          exact absurd (congrArg Prod.snd h) (by simp)
        · rw [conduct_turn_ok_eq net store id keys d ft a₂ hget hst hfor hag] at h
          have h₁ := congrArg Prod.fst h
          have h₂ := congrArg Prod.snd h
          simp at h₁ h₂
          exact ⟨d, ft, a₂, rfl, hst, hfor, hag, h₂.symm, by rw [← h₂]; exact h₁.symm⟩

/-! ## C9 — provider dispatch -/

/-- C9: the three per-provider model-name sets are pairwise disjoint; a
model identifier in one of them is dispatched by `_get_provider` to that
set's provider family; and for an identifier in none of them,
`generate_response` fails with `UnknownModel` whatever the network
behaviour is — the outcome is the same for every oracle, i.e. no backend
call is attempted. -/
theorem c9_unknown_model_and_dispatch :
    (∀ m, ¬ (m ∈ CLAUDE_MODELS ∧ m ∈ GPT_MODELS)) ∧
    (∀ m, ¬ (m ∈ CLAUDE_MODELS ∧ m ∈ GEMINI_MODELS)) ∧
    (∀ m, ¬ (m ∈ GPT_MODELS ∧ m ∈ GEMINI_MODELS)) ∧
    (∀ m, m ∈ CLAUDE_MODELS → get_provider m = some .claude) ∧
    (∀ m, m ∈ GPT_MODELS → get_provider m = some .gpt) ∧
    (∀ m, m ∈ GEMINI_MODELS → get_provider m = some .gemini) ∧
    (∀ m, m ∉ ALL_MODELS → get_provider m = none ∧
      ∀ (net : Net) (sys : String) (msgs : List ChatMsg) (keys : ApiKeys),
        generate_response net m sys msgs keys = .error (.unknownModel m)) := by
  refine ⟨?_, ?_, ?_, ?_, ?_, ?_, ?_⟩
  · intro m ⟨h₁, h₂⟩
    simp [CLAUDE_MODELS, GPT_MODELS] at h₁ h₂
    rcases h₁ with h | h <;> subst h <;> simp_all
  · intro m ⟨h₁, h₂⟩
    simp [CLAUDE_MODELS, GEMINI_MODELS] at h₁ h₂
    rcases h₁ with h | h <;> subst h <;> simp_all
  · intro m ⟨h₁, h₂⟩
    simp [GPT_MODELS, GEMINI_MODELS] at h₁ h₂
    rcases h₁ with h | h <;> subst h <;> simp_all
  · intro m h
    simp [get_provider, h]
  · intro m h
    have hc : m ∉ CLAUDE_MODELS := by
      intro hc
      simp [CLAUDE_MODELS, GPT_MODELS] at h hc
      rcases h with h | h <;> subst h <;> simp_all
    simp [get_provider, h, hc]
  · intro m h
    have hc : m ∉ CLAUDE_MODELS := by
      intro hc
      simp [CLAUDE_MODELS, GEMINI_MODELS] at h hc
      rcases h with h | h <;> subst h <;> simp_all
    have hg : m ∉ GPT_MODELS := by
      intro hg
      simp [GPT_MODELS, GEMINI_MODELS] at h hg
      rcases h with h | h <;> subst h <;> simp_all
    simp [get_provider, h, hc, hg]
  · intro m h
    simp only [ALL_MODELS, List.mem_append, not_or] at h
    obtain ⟨⟨h₁, h₂⟩, h₃⟩ := h
    have hp : get_provider m = none := by simp [get_provider, h₁, h₂, h₃]
    exact ⟨hp, fun net sys msgs keys => by simp [generate_response, hp]⟩

/-- Witness for C9: the spec's example `"not-a-real-model"` is unknown and
fails identically under two different oracles; `"gpt-4o"` dispatches to
the GPT family. -/
theorem c9_witness :
    generate_response netFail "not-a-real-model" "s" [] testKeys
      = .error (.unknownModel "not-a-real-model") ∧
    generate_response (netConst "T") "not-a-real-model" "s" [] testKeys
      = .error (.unknownModel "not-a-real-model") ∧
    get_provider "gpt-4o" = some .gpt :=
  ⟨(c9_unknown_model_and_dispatch.2.2.2.2.2.2 "not-a-real-model" (by decide)).2
      netFail "s" [] testKeys,
    (c9_unknown_model_and_dispatch.2.2.2.2.2.2 "not-a-real-model" (by decide)).2
      (netConst "T") "s" [] testKeys,
    c9_unknown_model_and_dispatch.2.2.2.2.1 "gpt-4o" (by decide)⟩

/-! ## C10 — update is an unconditional upsert -/

/-- C10: `update_debate` is total and stores the record under its own
identifier whether or not that identifier is present — so updating an
absent identifier silently inserts, other identifiers are untouched, and
updating after `delete_debate` resurrects the record. -/
theorem c10_update_upserts :
    (∀ (store : Store) (d : DebateState),
      get_debate (update_debate store d) d.debate_id = some d) ∧
    (∀ (store : Store) (d : DebateState) (k : String), ¬ k = d.debate_id →
      get_debate (update_debate store d) k = get_debate store k) ∧
    (∀ (store : Store) (d : DebateState),
      get_debate store d.debate_id = none →
      get_debate (update_debate store d) d.debate_id = some d) ∧
    (∀ (store : Store) (d : DebateState),
      get_debate (update_debate (delete_debate store d.debate_id).1 d) d.debate_id
        = some d) :=
  ⟨fun store d => dictLookup_dictSet_self store d.debate_id d,
    fun store d k h => dictLookup_dictSet_ne store d.debate_id k d h,
    fun store d _ => dictLookup_dictSet_self store d.debate_id d,
    fun store d => dictLookup_dictSet_self (delete_debate store d.debate_id).1 d.debate_id d⟩

/-- Witness for C10: updating a deleted (hence absent) identifier
resurrects the record, while an unrelated key is untouched. -/
theorem c10_witness :
    get_debate (update_debate [] testCompletedDebate) "d1" = some testCompletedDebate ∧
    get_debate (update_debate [("d1", testDebate)] testCompletedDebate) "zz"
      = get_debate [("d1", testDebate)] "zz" ∧
    get_debate
        (update_debate (delete_debate [("d1", testDebate)] "d1").1 testCompletedDebate) "d1"
      = some testCompletedDebate :=
  ⟨c10_update_upserts.1 [] testCompletedDebate,
    c10_update_upserts.2.1 [("d1", testDebate)] testCompletedDebate "zz" (by decide),
    c10_update_upserts.2.2.2 [("d1", testDebate)] testCompletedDebate⟩

/-! ## C1 — failed turns and store visibility -/

/-- Counterexample for C1: `testDebate` is freshly created (`created`, no
messages); the FOR call succeeds and the AGAINST call raises a provider
error, so `conduct_turn` fails without reaching `update_debate` — yet
`get_debate` afterwards shows the status flipped to `in_progress` and the
FOR message appended, because `get_debate` returned the canonical object
and the mutations were in place.  The record observable through the store
is NOT the last persisted state. -/
theorem c1_counterexample :
    (conduct_turn netForOnly [("d1", testDebate)] "d1" testKeys).2
      = .error (.llm .providerError) ∧
    get_debate [("d1", testDebate)] "d1" = some testDebate ∧
    testDebate.status = "created" ∧ testDebate.messages = [] ∧
    get_debate (conduct_turn netForOnly [("d1", testDebate)] "d1" testKeys).1 "d1"
      = some ⟨"d1", "P", "claude-sonnet-4-5-20250929", "gpt-4o", "in_progress",
          [⟨"for_agent", "A"⟩], 0, 5⟩ ∧
    ¬ get_debate (conduct_turn netForOnly [("d1", testDebate)] "d1" testKeys).1 "d1"
      = some testDebate :=
  ⟨rfl, rfl, rfl, rfl, rfl, by decide⟩

/-- C1 amended: because `get_debate` returns the canonical stored object
and `conduct_turn` mutates it in place, a provider failure leaves the
mutations made before the failure visible through the store even though
`update_debate` was never reached: after a failed FOR call the record
observed via `get_debate` is `advanceStatus d` (status flipped to
`in_progress` when it was `created`); after a failed AGAINST call it
additionally carries the appended FOR message.  A retried `conduct_turn`
therefore re-attempts from this partially mutated record, not from the
last state passed to `update_debate`. -/
theorem c1_failed_turn_visibility :
    ∀ (net : Net) (store : Store) (id : String) (keys : ApiKeys) (d : DebateState),
      get_debate store id = some d → ¬ d.status = "completed" →
      (∀ e, generate_response net d.for_model (get_system_prompt "for" d.proposition)
          (prepare_messages_for_agent d.messages "for_agent") keys = .error e →
        conduct_turn net store id keys
          = (dictSet store id (advanceStatus d), .error (.llm e)) ∧
        get_debate (conduct_turn net store id keys).1 id = some (advanceStatus d)) ∧
      (∀ ft e, generate_response net d.for_model (get_system_prompt "for" d.proposition)
          (prepare_messages_for_agent d.messages "for_agent") keys = .ok ft →
        generate_response net d.against_model (get_system_prompt "against" d.proposition)
          (prepare_messages_for_agent (d.messages ++ [⟨"for_agent", ft⟩]) "against_agent")
          keys = .error e →
        conduct_turn net store id keys
          = (dictSet store id (appendMsg (advanceStatus d) ⟨"for_agent", ft⟩),
              .error (.llm e)) ∧
        get_debate (conduct_turn net store id keys).1 id
          = some (appendMsg (advanceStatus d) ⟨"for_agent", ft⟩)) ∧
      (d.status = "created" → (advanceStatus d).status = "in_progress") := by
  intro net store id keys d hget hst
  refine ⟨?_, ?_, ?_⟩
  · intro e hfor
    have heq := conduct_turn_forFail net store id keys d e hget hst hfor
    exact ⟨heq, by rw [heq]; exact dictLookup_dictSet_self store id (advanceStatus d)⟩
  · intro ft e hfor hag
    have heq := conduct_turn_againstFail net store id keys d ft e hget hst hfor hag
    exact ⟨heq, by
      rw [heq]
      exact dictLookup_dictSet_self store id (appendMsg (advanceStatus d) ⟨"for_agent", ft⟩)⟩
  · intro hc
    simp [advanceStatus, hc]

/-- Witness for C1's amended theorem, at the counterexample's inputs. -/
theorem c1_witness :
    conduct_turn netForOnly [("d1", testDebate)] "d1" testKeys
      = (dictSet [("d1", testDebate)] "d1"
          (appendMsg (advanceStatus testDebate) ⟨"for_agent", "A"⟩),
          .error (.llm .providerError)) ∧
    get_debate (conduct_turn netForOnly [("d1", testDebate)] "d1" testKeys).1 "d1"
      = some (appendMsg (advanceStatus testDebate) ⟨"for_agent", "A"⟩) :=
  (c1_failed_turn_visibility netForOnly [("d1", testDebate)] "d1" testKeys testDebate rfl
      (by decide)).2.1 "A" .providerError rfl rfl

/-! ## C7 — status monotonicity -/

theorem statusRank_advanceStatus (d : DebateState) :
    statusRank d.status ≤ statusRank (advanceStatus d).status := by
  rw [advanceStatus_status]
  by_cases h : d.status = "created" <;> simp [h, statusRank]

theorem statusRank_le_two (s : String) : statusRank s ≤ 2 := by
  unfold statusRank
  split
  · omega
  · split <;> omega

theorem statusRank_finishTurn (d : DebateState) :
    statusRank d.status ≤ statusRank (finishTurn d).status := by
  rw [finishTurn_status]
  split
  · have h₂ : statusRank "completed" = 2 := by decide
    rw [h₂]
    exact statusRank_le_two _
  · exact le_refl _

/-- C7: `conduct_turn` on a completed debate fails with
`AlreadyCompleted` and returns the store exactly unchanged (so status,
messages and counter are untouched); and over the operations that touch
the store — `conduct_turn` in any outcome (`adjudicate_debate` performs
no store write, which the embedding reflects by not returning a store) —
the status of every record only moves forward in the
`created → in_progress → completed` order; in particular a record that
was `completed` is still there, unchanged. -/
theorem c7_status_monotonic :
    ∀ (net : Net) (store : Store) (id : String) (keys : ApiKeys),
      (∀ d, get_debate store id = some d → d.status = "completed" →
        conduct_turn net store id keys = (store, .error .alreadyCompleted)) ∧
      (StoreWF store → ∀ k d₀ d₁,
        get_debate store k = some d₀ →
        get_debate (conduct_turn net store id keys).1 k = some d₁ →
        statusRank d₀.status ≤ statusRank d₁.status) ∧
      (StoreWF store → ∀ k d₀,
        get_debate store k = some d₀ → d₀.status = "completed" →
        get_debate (conduct_turn net store id keys).1 k = some d₀) := by
  intro net store id keys
  have hcases : (conduct_turn net store id keys).1 = store ∨
      ∃ d dX, get_debate store id = some d ∧ ¬ d.status = "completed" ∧
        dX.debate_id = d.debate_id ∧
        statusRank d.status ≤ statusRank dX.status ∧
        ((conduct_turn net store id keys).1 = dictSet store id dX ∨
          (conduct_turn net store id keys).1
            = dictSet (dictSet store id dX) dX.debate_id dX) := by
    rcases hget : get_debate store id with _ | d
    · exact Or.inl (by rw [conduct_turn_notFound net store id keys hget])
    · by_cases hst : d.status = "completed"
      · exact Or.inl (by rw [conduct_turn_completed net store id keys d hget hst])
      · rcases hfor : generate_response net d.for_model
            (get_system_prompt "for" d.proposition)
            (prepare_messages_for_agent d.messages "for_agent") keys with e | ft
        · refine Or.inr ⟨d, advanceStatus d, rfl, hst, by simp, statusRank_advanceStatus d,
            Or.inl ?_⟩
          rw [conduct_turn_forFail net store id keys d e hget hst hfor]
        · rcases hag : generate_response net d.against_model
              (get_system_prompt "against" d.proposition)
              (prepare_messages_for_agent (d.messages ++ [⟨"for_agent", ft⟩])
                "against_agent") keys with e | a₂
          · refine Or.inr ⟨d, appendMsg (advanceStatus d) ⟨"for_agent", ft⟩, rfl, hst,
              by simp, ?_, Or.inl ?_⟩
            · simpa using statusRank_advanceStatus d
            · rw [conduct_turn_againstFail net store id keys d ft e hget hst hfor hag]
          · refine Or.inr ⟨d, turnResult d ft a₂, rfl, hst, by simp [turnResult], ?_,
              Or.inr ?_⟩
            · calc statusRank d.status ≤ statusRank (advanceStatus d).status :=
                    statusRank_advanceStatus d
                _ ≤ _ := by
                    simpa [turnResult] using statusRank_finishTurn
                      (appendMsg (appendMsg (advanceStatus d) ⟨"for_agent", ft⟩)
                        ⟨"against_agent", a₂⟩)
            · rw [conduct_turn_ok_eq net store id keys d ft a₂ hget hst hfor hag]
              rfl
  refine ⟨fun d hget hst => conduct_turn_completed net store id keys d hget hst, ?_, ?_⟩
  · intro hwf k d₀ d₁ h₀ h₁
    rcases hcases with heq | ⟨d, dX, hget, hst, hid, hrank, hsh⟩
    · rw [heq, h₀] at h₁
      cases h₁
      exact le_refl _
    · have hidk : dX.debate_id = id := by rw [hid]; exact hwf id d hget
      by_cases hk : k = id
      · subst hk
        have : get_debate (conduct_turn net store k keys).1 k = some dX := by
          rcases hsh with h | h
          · rw [h]; exact dictLookup_dictSet_self store k dX
          · rw [h, hidk, dictSet_dictSet]; exact dictLookup_dictSet_self store k dX
        rw [this] at h₁
        cases h₁
        rw [hget] at h₀
        cases h₀
        exact hrank
      · have : get_debate (conduct_turn net store id keys).1 k = get_debate store k := by
          rcases hsh with h | h
          · rw [h]; exact dictLookup_dictSet_ne store id k dX hk
          · rw [h, hidk, dictSet_dictSet]; exact dictLookup_dictSet_ne store id k dX hk
        rw [this, h₀] at h₁
        cases h₁
        exact le_refl _
  · intro hwf k d₀ h₀ hst₀
    rcases hcases with heq | ⟨d, dX, hget, hst, hid, hrank, hsh⟩
    · rw [heq, h₀]
    · have hidk : dX.debate_id = id := by rw [hid]; exact hwf id d hget
      by_cases hk : k = id
      · subst hk
        rw [hget] at h₀
        cases h₀
        exact absurd hst₀ hst
      · have : get_debate (conduct_turn net store id keys).1 k = get_debate store k := by
          rcases hsh with h | h
          · rw [h]; exact dictLookup_dictSet_ne store id k dX hk
          · rw [h, hidk, dictSet_dictSet]; exact dictLookup_dictSet_ne store id k dX hk
        rw [this, h₀]

/-- Witness for C7: a completed one-turn debate rejects a further turn and
the store is exactly unchanged; its status rank does not decrease. -/
theorem c7_witness :
    conduct_turn (netConst "T") [("d1", testCompletedDebate)] "d1" testKeys
      = ([("d1", testCompletedDebate)], .error .alreadyCompleted) ∧
    get_debate
        (conduct_turn (netConst "T") [("d1", testCompletedDebate)] "d1" testKeys).1 "d1"
      = some testCompletedDebate :=
  ⟨(c7_status_monotonic (netConst "T") [("d1", testCompletedDebate)] "d1" testKeys).1
      testCompletedDebate rfl rfl,
    (c7_status_monotonic (netConst "T") [("d1", testCompletedDebate)] "d1" testKeys).2.2
      (by
        intro k d h
        simp [get_debate, dictLookup] at h
        rcases h with ⟨hk, hd⟩
        rw [← hd, ← hk]
        rfl)
      "d1" testCompletedDebate rfl rfl⟩

/-! ## Successful-run invariants (C3, C4) -/

@[simp] theorem turnResult_debate_id (d : DebateState) (ft a₂ : String) :
    (turnResult d ft a₂).debate_id = d.debate_id := by simp [turnResult]

@[simp] theorem turnResult_messages (d : DebateState) (ft a₂ : String) :
    (turnResult d ft a₂).messages
      = d.messages ++ [⟨"for_agent", ft⟩, ⟨"against_agent", a₂⟩] := by
  simp [turnResult]

@[simp] theorem turnResult_current_turn (d : DebateState) (ft a₂ : String) :
    (turnResult d ft a₂).current_turn = d.current_turn + 1 := by simp [turnResult]

@[simp] theorem turnResult_max_turns (d : DebateState) (ft a₂ : String) :
    (turnResult d ft a₂).max_turns = d.max_turns := by simp [turnResult]

theorem turnResult_status (d : DebateState) (ft a₂ : String) :
    (turnResult d ft a₂).status =
      if d.max_turns ≤ d.current_turn + 1 then "completed"
      else (advanceStatus d).status := by
  simp [turnResult, finishTurn_status]

theorem runDebate_inv (P : DebateState → Prop) (hP : TurnClosed P) (keys : ApiKeys)
    (id : String) :
    ∀ (nets : List Net) (store store₂ : Store),
      (∃ d, get_debate store id = some d ∧ d.debate_id = id ∧ P d) →
      runDebate nets keys id store = (store₂, true) →
      ∃ d, get_debate store₂ id = some d ∧ d.debate_id = id ∧ P d
  | [], store, store₂, hinv, hrun => by
      simp [runDebate] at hrun
      rw [← hrun]
      exact hinv
  | net :: rest, store, store₂, hinv, hrun => by
      rcases hr : conduct_turn net store id keys with ⟨s₂, res⟩
      rcases res with e | d₃
      · simp [runDebate, hr] at hrun
      · simp only [runDebate, hr] at hrun
        obtain ⟨d, hget, hid, hPd⟩ := hinv
        obtain ⟨d₂, ft, a₂, hget₂, hst, _, _, hd₃, hs₂⟩ :=
          conduct_turn_ok_inv net store id keys s₂ d₃ hr
        rw [hget] at hget₂
        cases hget₂
        have hid₃ : d₃.debate_id = id := by rw [hd₃, turnResult_debate_id, hid]
        have hnext : ∃ d₄, get_debate s₂ id = some d₄ ∧ d₄.debate_id = id ∧ P d₄ := by
          refine ⟨d₃, ?_, hid₃, ?_⟩
          · rw [hs₂]
            unfold update_debate get_debate
            rw [hid₃, dictSet_dictSet]
            exact dictLookup_dictSet_self store id d₃
          · rw [hd₃]
            exact hP d ft a₂ hPd hst
        exact runDebate_inv P hP keys id rest s₂ store₂ hnext hrun

theorem altChk_append_pair (fc ac : String) :
    ∀ (msgs : List Message) (e : String), e = "for_agent" ∨ e = "against_agent" →
      msgs.length % 2 = 0 → altChk e msgs = true →
      altChk e (msgs ++ [⟨e, fc⟩,
        ⟨if e = "for_agent" then "against_agent" else "for_agent", ac⟩]) = true
  | [], e, he, _, _ => by
      rcases he with h | h <;> subst h <;> simp [altChk]
  | [m], _, _, hlen, _ => by simp at hlen
  | m₁ :: m₂ :: rest, e, he, hlen, hchk => by
      have hrest : rest.length % 2 = 0 := by
        simp [List.length_cons] at hlen
        omega
      rcases he with h | h <;> subst h
      · simp only [List.cons_append]
        simp only [altChk] at hchk ⊢
        simp at hchk ⊢
        obtain ⟨h₁, h₂, h₃⟩ := hchk
        refine ⟨h₁, h₂, ?_⟩
        have := altChk_append_pair fc ac rest "for_agent" (Or.inl rfl) hrest h₃
        simpa using this
      · simp only [List.cons_append]
        simp only [altChk] at hchk ⊢
        simp at hchk ⊢
        obtain ⟨h₁, h₂, h₃⟩ := hchk
        refine ⟨h₁, h₂, ?_⟩
        have := altChk_append_pair fc ac rest "against_agent" (Or.inr rfl) hrest h₃
        simpa using this

/-- C3: starting from a freshly created debate, after any number of
`conduct_turn` calls that each complete successfully the record satisfies
`len(messages) = 2 * current_turn` and the message roles strictly
alternate `for_agent`, `against_agent`, … starting with `for_agent`. -/
theorem c3_alternation_invariant :
    ∀ (id p fm am : String) (keys : ApiKeys) (nets : List Net) (s₀ store₂ : Store),
      runDebate nets keys id (create_debate s₀ (newDebate id p fm am)) = (store₂, true) →
      ∃ d, get_debate store₂ id = some d ∧
        d.messages.length = 2 * d.current_turn ∧
        altChk "for_agent" d.messages = true := by
  intro id p fm am keys nets s₀ store₂ hrun
  have hP : TurnClosed (fun d => d.messages.length = 2 * d.current_turn ∧
      altChk "for_agent" d.messages = true) := by
    intro d ft a₂ hPd hst
    obtain ⟨hlen, halt⟩ := hPd
    constructor
    · simp [hlen]
      omega
    · rw [turnResult_messages]
      have hpar : d.messages.length % 2 = 0 := by omega
      have := altChk_append_pair ft a₂ d.messages "for_agent" (Or.inl rfl) hpar halt
      simpa using this
  have hbase : ∃ d, get_debate (create_debate s₀ (newDebate id p fm am)) id = some d ∧
      d.debate_id = id ∧ (fun d => d.messages.length = 2 * d.current_turn ∧
        altChk "for_agent" d.messages = true) d := by
    refine ⟨newDebate id p fm am, ?_, rfl, by simp [newDebate, altChk]⟩
    exact dictLookup_dictSet_self s₀ id (newDebate id p fm am)
  obtain ⟨d, hget, _, hPd⟩ :=
    runDebate_inv _ hP keys id nets (create_debate s₀ (newDebate id p fm am)) store₂
      hbase hrun
  exact ⟨d, hget, hPd⟩

/-- Witness for C3: one successful turn from a fresh debate. -/
theorem c3_witness :
    ∃ d, get_debate (runDebate [netConst "T"] testKeys "d1"
        (create_debate []
          (newDebate "d1" "P" "claude-sonnet-4-5-20250929" "gpt-4o"))).1 "d1" = some d ∧
      d.messages.length = 2 * d.current_turn ∧
      altChk "for_agent" d.messages = true :=
  c3_alternation_invariant "d1" "P" "claude-sonnet-4-5-20250929" "gpt-4o" testKeys
    [netConst "T"] [] _ rfl

/-- C4: starting from a freshly created debate (`max_turns = 5`, the only
value creation produces, a positive integer), after each successful
`conduct_turn` the status is `completed` exactly when `current_turn`
equals `max_turns`, and `current_turn` never exceeds `max_turns`. -/
theorem c4_completion_boundary :
    ∀ (id p fm am : String) (keys : ApiKeys) (nets : List Net) (s₀ store₂ : Store),
      runDebate nets keys id (create_debate s₀ (newDebate id p fm am)) = (store₂, true) →
      ∃ d, get_debate store₂ id = some d ∧
        d.current_turn ≤ d.max_turns ∧
        (d.status = "completed" ↔ d.current_turn = d.max_turns) := by
  intro id p fm am keys nets s₀ store₂ hrun
  have hP : TurnClosed (fun d => d.current_turn ≤ d.max_turns ∧
      (d.status = "completed" ↔ d.current_turn = d.max_turns)) := by
    intro d ft a₂ hPd hst
    obtain ⟨hle, hiff⟩ := hPd
    have hne : ¬ d.current_turn = d.max_turns := fun h => hst (hiff.mpr h)
    have hlt : d.current_turn < d.max_turns := lt_of_le_of_ne hle hne
    constructor
    · simp
      omega
    · rw [turnResult_status]
      simp only [turnResult_current_turn, turnResult_max_turns]
      by_cases hdone : d.max_turns ≤ d.current_turn + 1
      · simp [hdone]
        omega
      · simp [hdone]
        constructor
        · intro hcomp
          rw [advanceStatus_status] at hcomp
          by_cases hc : d.status = "created"
          · rw [if_pos hc] at hcomp
            exact absurd hcomp (by decide)
          · rw [if_neg hc] at hcomp
            exact absurd hcomp hst
        · intro heq
          omega
  have hbase : ∃ d, get_debate (create_debate s₀ (newDebate id p fm am)) id = some d ∧
      d.debate_id = id ∧ (fun d => d.current_turn ≤ d.max_turns ∧
        (d.status = "completed" ↔ d.current_turn = d.max_turns)) d := by
    refine ⟨newDebate id p fm am, ?_, rfl, by simp [newDebate]⟩
    exact dictLookup_dictSet_self s₀ id (newDebate id p fm am)
  obtain ⟨d, hget, _, hPd⟩ :=
    runDebate_inv _ hP keys id nets (create_debate s₀ (newDebate id p fm am)) store₂
      hbase hrun
  exact ⟨d, hget, hPd⟩

/-- Witness for C4: one successful turn; `current_turn = 1 < 5 =
max_turns` and the status is not yet `completed`. -/
theorem c4_witness :
    ∃ d, get_debate (runDebate [netConst "T"] testKeys "d1"
        (create_debate []
          (newDebate "d1" "P" "claude-sonnet-4-5-20250929" "gpt-4o"))).1 "d1" = some d ∧
      d.current_turn ≤ d.max_turns ∧
      (d.status = "completed" ↔ d.current_turn = d.max_turns) :=
  c4_completion_boundary "d1" "P" "claude-sonnet-4-5-20250929" "gpt-4o" testKeys
    [netConst "T"] [] _ rfl

/-! ## C8 — role translation and the AGAINST view -/

/-- C8: `_prepare_messages_for_agent` translates every message of the
agent's own role to an `assistant` (self) turn and every message of the
opposing role to a `user` (other) turn, symmetrically for the FOR and the
AGAINST perspective; appending the current FOR message before building the
AGAINST view places it in that view as its final `user` turn; and in
every successful `conduct_turn` the AGAINST generation is performed on
exactly the view built from the history with the just-appended FOR
message. -/
theorem c8_role_translation :
    (∀ msgs : List Message, prepare_messages_for_agent msgs "for_agent"
      = msgs.map (fun m =>
          ⟨if m.role = "for_agent" then "assistant" else "user", m.content⟩)) ∧
    (∀ msgs : List Message, prepare_messages_for_agent msgs "against_agent"
      = msgs.map (fun m =>
          ⟨if m.role = "against_agent" then "assistant" else "user", m.content⟩)) ∧
    (∀ (msgs : List Message) (ft : String),
      prepare_messages_for_agent (msgs ++ [⟨"for_agent", ft⟩]) "against_agent"
        = prepare_messages_for_agent msgs "against_agent" ++ [⟨"user", ft⟩]) ∧
    (∀ (net : Net) (store : Store) (id : String) (keys : ApiKeys)
        (store₂ : Store) (d₃ : DebateState),
      conduct_turn net store id keys = (store₂, .ok d₃) →
      ∃ d ft a₂, get_debate store id = some d ∧
        generate_response net d.for_model (get_system_prompt "for" d.proposition)
          (prepare_messages_for_agent d.messages "for_agent") keys = .ok ft ∧
        generate_response net d.against_model (get_system_prompt "against" d.proposition)
          (prepare_messages_for_agent (d.messages ++ [⟨"for_agent", ft⟩])
            "against_agent") keys = .ok a₂ ∧
        d₃.messages = d.messages ++ [⟨"for_agent", ft⟩, ⟨"against_agent", a₂⟩]) := by
  refine ⟨?_, ?_, ?_, ?_⟩
  · intro msgs
    induction msgs with
    | nil => rfl
    | cons m t ih =>
        simp only [prepare_messages_for_agent, List.map_cons] at ih ⊢
        rw [ih]
        by_cases h : m.role = "for_agent" <;> simp [h]
  · intro msgs
    induction msgs with
    | nil => rfl
    | cons m t ih =>
        simp only [prepare_messages_for_agent, List.map_cons] at ih ⊢
        rw [ih]
        by_cases h : m.role = "against_agent" <;> simp [h]
  · intro msgs ft
    simp [prepare_messages_for_agent]
  · intro net store id keys store₂ d₃ h
    obtain ⟨d, ft, a₂, hget, _, hfor, hag, hd₃, _⟩ :=
      conduct_turn_ok_inv net store id keys store₂ d₃ h
    exact ⟨d, ft, a₂, hget, hfor, hag, by rw [hd₃, turnResult_messages]⟩

/-- Witness for C8: in a concrete successful turn the AGAINST view
includes the just-generated FOR message. -/
theorem c8_witness :
    ∃ d ft a₂, get_debate [("d1", testDebate)] "d1" = some d ∧
      generate_response (netConst "T") d.for_model (get_system_prompt "for" d.proposition)
        (prepare_messages_for_agent d.messages "for_agent") testKeys = .ok ft ∧
      generate_response (netConst "T") d.against_model
        (get_system_prompt "against" d.proposition)
        (prepare_messages_for_agent (d.messages ++ [⟨"for_agent", ft⟩])
          "against_agent") testKeys = .ok a₂ ∧
      (conduct_turn (netConst "T") [("d1", testDebate)] "d1" testKeys).2.toOption.map
          DebateState.messages
        = some (d.messages ++ [⟨"for_agent", ft⟩, ⟨"against_agent", a₂⟩]) := by
  obtain ⟨d, ft, a₂, hget, hfor, hag, hmsg⟩ :=
    c8_role_translation.2.2.2 (netConst "T") [("d1", testDebate)] "d1" testKeys
      (conduct_turn (netConst "T") [("d1", testDebate)] "d1" testKeys).1
      ⟨"d1", "P", "claude-sonnet-4-5-20250929", "gpt-4o", "in_progress",
        [⟨"for_agent", "T"⟩, ⟨"against_agent", "T"⟩], 1, 5⟩ rfl
  exact ⟨d, ft, a₂, hget, hfor, hag, by rw [← hmsg]; rfl⟩

/-! ## String-scanning lemmas (for the fenced-block extraction) -/

theorem charsPrefix_append_sub (s₁ s₂ l : List Char) :
    charsPrefix (s₁ ++ s₂) l = (charsPrefix s₁ l && charsPrefix s₂ (l.drop s₁.length)) := by
  induction s₁ generalizing l with
  | nil => simp [charsPrefix]
  | cons a as ih =>
      cases l with
      | nil => simp [charsPrefix]
      | cons b bs => simp [charsPrefix, ih, Bool.and_assoc]

theorem charsPrefix_length_le (sub l : List Char) (h : charsPrefix sub l = true) :
    sub.length ≤ l.length := by
  induction sub generalizing l with
  | nil => simp
  | cons a as ih =>
      cases l with
      | nil => simp [charsPrefix] at h
      | cons b bs =>
          simp [charsPrefix] at h
          have := ih bs h.2
          simp
          omega

theorem charsPrefix_append_right (sub l r : List Char) (h : sub.length ≤ l.length) :
    charsPrefix sub (l ++ r) = charsPrefix sub l := by
  induction sub generalizing l with
  | nil => simp [charsPrefix]
  | cons a as ih =>
      cases l with
      | nil => simp at h
      | cons b bs =>
          simp at h
          simp [charsPrefix, ih bs (by omega)]

theorem charsPrefix_self_append (s r : List Char) : charsPrefix s (s ++ r) = true := by
  induction s with
  | nil => rfl
  | cons a as ih => simp [charsPrefix, ih]

theorem findChars_at_head (sub l : List Char) (i : Nat)
    (h : charsPrefix sub l = true) : findChars l sub i = some i := by
  cases l <;> simp [findChars, h]

theorem findChars_eq_none_iff (sub : List Char) :
    ∀ (l : List Char) (i : Nat),
      findChars l sub i = none ↔ ∀ s, s <:+ l → charsPrefix sub s = false := by
  intro l
  induction l with
  | nil =>
      intro i
      constructor
      · intro h s hs
        rw [List.suffix_nil.mp hs]
        simp [findChars] at h
        exact h
      · intro h
        simp [findChars, h [] List.nil_suffix]
  | cons c t ih =>
      intro i
      by_cases hp : charsPrefix sub (c :: t) = true
      · constructor
        · intro h₂
          rw [findChars_at_head sub (c :: t) i hp] at h₂
          exact Option.noConfusion h₂
        · intro h₂
          have h₃ := h₂ (c :: t) (List.suffix_refl _)
          rw [h₃] at hp
          exact Bool.noConfusion hp
      · have hp₂ : charsPrefix sub (c :: t) = false := by
          cases h : charsPrefix sub (c :: t)
          · rfl
          · exact absurd h hp
        rw [show findChars (c :: t) sub i = findChars t sub (i + 1) by
          simp [findChars, hp₂]]
        rw [ih (i + 1)]
        constructor
        · intro h s hs
          rcases List.suffix_cons_iff.mp hs with h₂ | h₂
          · rw [h₂]; exact hp₂
          · exact h s h₂
        · intro h s hs
          exact h s (hs.trans (List.suffix_cons c t))

theorem findChars_skip (sub r : List Char) :
    ∀ (l : List Char) (i : Nat),
      (∀ s, s <:+ l → ¬ s = [] → charsPrefix sub (s ++ r) = false) →
      findChars (l ++ r) sub i = findChars r sub (i + l.length) := by
  intro l
  induction l with
  | nil => intro i _; simp
  | cons c t ih =>
      intro i h
      have hp : charsPrefix sub (c :: (t ++ r)) = false := by
        have := h (c :: t) (List.suffix_refl _) (by simp)
        simpa using this
      rw [show ((c :: t) ++ r : List Char) = c :: (t ++ r) by simp]
      rw [show findChars (c :: (t ++ r)) sub i = findChars (t ++ r) sub (i + 1) by
        simp [findChars, hp]]
      rw [ih (i + 1) (fun s hs hne => h s (hs.trans (List.suffix_cons c t)) hne)]
      have harith : i + 1 + t.length = i + (c :: t).length := by simp; omega
      rw [harith]

theorem suffix_append_cases {s A B : List Char} (h : s <:+ A ++ B) :
    s <:+ B ∨ ∃ s₁, s₁ <:+ A ∧ ¬ s₁ = [] ∧ s = s₁ ++ B := by
  induction A with
  | nil => exact Or.inl (by simpa using h)
  | cons a A ih =>
      rw [List.cons_append] at h
      rcases List.suffix_cons_iff.mp h with h₂ | h₂
      · exact Or.inr ⟨a :: A, List.suffix_refl _, by simp, by rw [h₂]; simp⟩
      · rcases ih h₂ with h₃ | ⟨s₁, hs₁, hne, heq⟩
        · exact Or.inl h₃
        · exact Or.inr ⟨s₁, hs₁.trans (List.suffix_cons a A), hne, heq⟩

theorem suffix_single {s : List Char} {a : Char} (h : s <:+ [a]) :
    s = [] ∨ s = [a] := by
  rcases List.suffix_cons_iff.mp h with h₂ | h₂
  · exact Or.inr h₂
  · exact Or.inl (List.suffix_nil.mp h₂)

/-! ## Strip lemmas -/

theorem stripChars_cons_ws (c : Char) (h : isPyWs c = true) (l : List Char) :
    stripChars (c :: l) = stripChars l := by
  simp [stripChars, List.dropWhile_cons, h]

theorem stripChars_concat_ws (c : Char) (h : isPyWs c = true) (l : List Char) :
    stripChars (l ++ [c]) = stripChars l := by
  unfold stripChars
  rw [List.dropWhile_append]
  by_cases he : (l.dropWhile isPyWs).isEmpty
  · rw [if_pos he, List.isEmpty_iff.mp he]
    simp [List.dropWhile_cons, h]
  · rw [if_neg he, List.reverse_append]
    simp [List.dropWhile_cons, h]

theorem dropWhile_decomp (p : Char → Bool) (l : List Char) :
    ∃ w, l = w ++ l.dropWhile p := by
  induction l with
  | nil => exact ⟨[], rfl⟩
  | cons c t ih =>
      by_cases h : p c
      · obtain ⟨w, hw⟩ := ih
        exact ⟨c :: w, by simp [List.dropWhile_cons, h]; exact hw⟩
      · exact ⟨[], by simp [List.dropWhile_cons, h]⟩

theorem stripChars_infix (l : List Char) : ∃ a b, l = a ++ stripChars l ++ b := by
  obtain ⟨w₁, hw₁⟩ := dropWhile_decomp isPyWs l
  have key : ∀ m : List Char, ∃ w, m = (m.reverse.dropWhile isPyWs).reverse ++ w := by
    intro m
    obtain ⟨w, hw⟩ := dropWhile_decomp isPyWs m.reverse
    refine ⟨w.reverse, ?_⟩
    calc m = m.reverse.reverse := (List.reverse_reverse m).symm
      _ = (w ++ m.reverse.dropWhile isPyWs).reverse := by rw [← hw]
      _ = (m.reverse.dropWhile isPyWs).reverse ++ w.reverse := by rw [List.reverse_append]
  obtain ⟨w₂, hw₂⟩ := key (l.dropWhile isPyWs)
  refine ⟨w₁, w₂, ?_⟩
  rw [List.append_assoc]
  show l = w₁ ++ (stripChars l ++ w₂)
  unfold stripChars
  rw [← hw₂]
  exact hw₁

/-- A non-occurrence transfers to any infix. -/
theorem findChars_none_inside (sub l l₂ : List Char)
    (h : findChars l sub 0 = none) (a b : List Char) (hinf : l = a ++ l₂ ++ b) :
    findChars l₂ sub 0 = none := by
  rw [findChars_eq_none_iff] at h ⊢
  intro s hs
  by_cases hlen : sub.length ≤ s.length
  · have hsuf : s ++ b <:+ l := by
      rw [hinf]
      rcases hs with ⟨pre, hpre⟩
      exact ⟨a ++ pre, by rw [← hpre]; simp⟩
    have := h (s ++ b) hsuf
    rw [charsPrefix_append_right sub s b hlen] at this
    exact this
  · cases hp : charsPrefix sub s
    · rfl
    · exact absurd (charsPrefix_length_le sub s hp) hlen

/-- Non-occurrence of the bare marker rules out the tagged marker. -/
theorem findChars_none_tickJson (l : List Char)
    (h : findChars l tickList 0 = none) :
    findChars l (tickList ++ "json".data) 0 = none := by
  rw [findChars_eq_none_iff] at h ⊢
  intro s hs
  rw [charsPrefix_append_sub]
  rw [h s hs]
  rfl

/-! ## Fence-shape computations -/

theorem tick_data : "```".data = tickList := rfl

theorem tickJson_data : "```json".data = tickList ++ "json".data := rfl

theorem isPyWs_tickChar : isPyWs tickChar = false := rfl

/-- Locating the closing marker after content that does not contain it:
in `'\n' :: p ++ '\n' :: tickList` the first occurrence of the marker is
at index `p.length + 2`. -/
theorem findTick_around (p : List Char) (hp : findChars p tickList 0 = none) :
    findChars (('\n' :: p ++ '\n' :: tickList)) tickList 0 = some (p.length + 2) := by
  have hform : ('\n' :: p ++ '\n' :: tickList)
      = ('\n' :: p ++ ['\n']) ++ tickList := by simp
  rw [hform]
  have hnone : ∀ s, s <:+ ('\n' :: p ++ ['\n']) → ¬ s = [] →
      charsPrefix tickList (s ++ tickList) = false := by
    intro s hs hne
    have hsplit : ('\n' :: p ++ ['\n'] : List Char) = ['\n'] ++ (p ++ ['\n']) := by simp
    rw [hsplit] at hs
    rcases suffix_append_cases hs with hs₂ | ⟨s₁, hs₁, hne₁, heq⟩
    · rcases suffix_append_cases hs₂ with hs₃ | ⟨s₂, hs₂₂, hne₂, heq₂⟩
      · rcases suffix_single hs₃ with h | h
        · exact absurd h hne
        · rw [h]; rfl
      · rw [heq₂]
        rcases s₂ with _ | ⟨x, _ | ⟨y, _ | ⟨z, s₃⟩⟩⟩
        · exact absurd rfl hne₂
        · simp [charsPrefix, tickList]
          intro hx
          decide
        · simp [charsPrefix, tickList]
          intro hx hy
          decide
        · have h₃ : (3 : Nat) ≤ (x :: y :: z :: s₃).length := by simp
          rw [show ((x :: y :: z :: s₃) ++ ['\n']) ++ tickList
              = (x :: y :: z :: s₃) ++ (['\n'] ++ tickList) by simp]
          rw [charsPrefix_append_right tickList _ _ (by simp [tickList])]
          rw [findChars_eq_none_iff] at hp
          exact hp _ hs₂₂
    · rcases suffix_single hs₁ with h | h
      · exact absurd h hne₁
      · rw [heq, h]
        rw [show (['\n'] ++ (p ++ ['\n'])) ++ tickList
            = '\n' :: (p ++ ['\n'] ++ tickList) by simp]
        rfl
  rw [findChars_skip tickList tickList ('\n' :: p ++ ['\n']) 0 hnone]
  rw [findChars_at_head tickList tickList _ (by decide)]
  simp

theorem stripChars_nonws_ends (c c₂ : Char) (hc : isPyWs c = false)
    (hc₂ : isPyWs c₂ = false) (M : List Char) :
    stripChars (c :: (M ++ [c₂])) = c :: (M ++ [c₂]) := by
  unfold stripChars
  rw [List.dropWhile_cons, hc]
  simp only [Bool.false_eq_true, if_false]
  rw [show ((c :: (M ++ [c₂])).reverse : List Char) = c₂ :: (M.reverse ++ [c]) by simp]
  rw [List.dropWhile_cons, hc₂]
  simp

/-! ## Extraction results for the payload presentations -/

theorem charsPrefix_false_head (a b : Char) (as bs : List Char) (h : ¬ a = b) :
    charsPrefix (a :: as) (b :: bs) = false := by
  simp [charsPrefix, h]

theorem extractChars_json_found (rt : List Char) (j : Nat)
    (h₁ : findChars rt ("```json".data) 0 = some 0)
    (h₂ : findChars (rt.drop 7) ("```".data) 0 = some j) :
    extractChars rt = stripChars ((rt.drop 7).take j) := by
  unfold extractChars
  split
  · rename_i idx heq
    rw [h₁] at heq
    injection heq with h₃
    subst h₃
    show (match findChars (rt.drop (0 + 7)) ("```".data) 0 with
      | some j => stripChars ((rt.drop (0 + 7)).take j)
      | none => stripChars ((rt.drop (0 + 7)).take (rt.length - 1 - (0 + 7)))) = _
    rw [Nat.zero_add, h₂]
  · rename_i heq
    rw [h₁] at heq
    exact Option.noConfusion heq

theorem extractChars_json_unclosed (rt : List Char)
    (h₁ : findChars rt ("```json".data) 0 = some 0)
    (h₂ : findChars (rt.drop 7) ("```".data) 0 = none) :
    extractChars rt = stripChars ((rt.drop 7).take (rt.length - 1 - 7)) := by
  unfold extractChars
  split
  · rename_i idx heq
    rw [h₁] at heq
    injection heq with h₃
    subst h₃
    show (match findChars (rt.drop (0 + 7)) ("```".data) 0 with
      | some j => stripChars ((rt.drop (0 + 7)).take j)
      | none => stripChars ((rt.drop (0 + 7)).take (rt.length - 1 - (0 + 7)))) = _
    rw [Nat.zero_add, h₂]
  · rename_i heq
    rw [h₁] at heq
    exact Option.noConfusion heq

theorem extractChars_plain_found (rt : List Char) (j : Nat)
    (h₀ : findChars rt ("```json".data) 0 = none)
    (h₁ : findChars rt ("```".data) 0 = some 0)
    (h₂ : findChars (rt.drop 3) ("```".data) 0 = some j) :
    extractChars rt = stripChars ((rt.drop 3).take j) := by
  unfold extractChars
  split
  · rename_i idx heq
    rw [h₀] at heq
    exact Option.noConfusion heq
  · split
    · rename_i idx heq
      rw [h₁] at heq
      injection heq with h₃
      subst h₃
      show (match findChars (rt.drop (0 + 3)) ("```".data) 0 with
        | some j => stripChars ((rt.drop (0 + 3)).take j)
        | none => stripChars ((rt.drop (0 + 3)).take (rt.length - 1 - (0 + 3)))) = _
      rw [Nat.zero_add, h₂]
    · rename_i heq
      rw [h₁] at heq
      exact Option.noConfusion heq

theorem extractChars_no_fence (l : List Char) (h : findChars l tickList 0 = none) :
    extractChars l = l := by
  have h₂ : findChars l ("```json".data) 0 = none := by
    rw [tickJson_data]
    exact findChars_none_tickJson l h
  unfold extractChars
  rw [h₂, tick_data, h]

theorem extractChars_fenced_json (p : List Char) (hp : findChars p tickList 0 = none) :
    extractChars ("```json\n".data ++ p ++ "\n```".data) = stripChars p := by
  have hdec : ("```json\n".data : List Char) = "```json".data ++ ['\n'] := by decide
  have hdec₂ : ("\n```".data : List Char) = '\n' :: tickList := by decide
  have hjson0 : findChars ("```json\n".data ++ p ++ "\n```".data) ("```json".data) 0
      = some 0 := by
    apply findChars_at_head
    rw [hdec]
    rw [show (("```json".data ++ ['\n']) ++ p ++ "\n```".data : List Char)
        = "```json".data ++ (['\n'] ++ p ++ "\n```".data) by simp]
    exact charsPrefix_self_append _ _
  have hdrop : ("```json\n".data ++ p ++ "\n```".data).drop 7
      = '\n' :: (p ++ '\n' :: tickList) := by
    rw [hdec, hdec₂]
    rw [show (("```json".data ++ ['\n']) ++ p ++ ('\n' :: tickList) : List Char)
        = "```json".data ++ ('\n' :: (p ++ '\n' :: tickList)) by simp]
    rw [List.drop_append_eq_append_drop]
    simp
  have hfind : findChars (("```json\n".data ++ p ++ "\n```".data).drop 7) ("```".data) 0
      = some (p.length + 2) := by
    rw [hdrop, tick_data]
    have h₂ := findTick_around p hp
    rw [show (('\n' :: p ++ '\n' :: tickList : List Char))
        = '\n' :: (p ++ '\n' :: tickList) by simp] at h₂
    exact h₂
  rw [extractChars_json_found _ (p.length + 2) hjson0 hfind]
  rw [hdrop]
  rw [show p.length + 2 = (p.length + 1) + 1 from rfl]
  rw [List.take_succ_cons]
  rw [List.take_append_eq_append_take]
  rw [List.take_of_length_le (Nat.le_succ p.length)]
  rw [show p.length + 1 - p.length = 1 by omega]
  rw [show (List.take 1 ('\n' :: tickList) : List Char) = ['\n'] from rfl]
  rw [stripChars_cons_ws '\n' rfl, stripChars_concat_ws '\n' rfl]

theorem extractChars_fenced_plain (p : List Char) (hp : findChars p tickList 0 = none) :
    extractChars ("```\n".data ++ p ++ "\n```".data) = stripChars p := by
  have hdec : ("```\n".data : List Char) = tickList ++ ['\n'] := by decide
  have hdec₂ : ("\n```".data : List Char) = '\n' :: tickList := by decide
  have hne : ¬ tickChar = '\n' := by decide
  have hnej : ¬ ('j' : Char) = '\n' := by decide
  have hnolist : ∀ s, s <:+ p → charsPrefix tickList s = false :=
    (findChars_eq_none_iff tickList p 0).mp hp
  have hjsonNone : findChars ("```\n".data ++ p ++ "\n```".data) ("```json".data) 0
      = none := by
    rw [tickJson_data, hdec, hdec₂]
    rw [findChars_eq_none_iff]
    intro s hs
    rw [show ((tickList ++ ['\n']) ++ p ++ ('\n' :: tickList) : List Char)
        = (tickList ++ ['\n']) ++ (p ++ ('\n' :: tickList)) by simp] at hs
    rcases suffix_append_cases hs with hs₂ | ⟨s₁, hs₁, hne₁, heq₁⟩
    · rcases suffix_append_cases hs₂ with hs₃ | ⟨s₂, hs₂₂, hne₂, heq₂⟩
      · have hcand : s = [] ∨ s = [tickChar] ∨ s = [tickChar, tickChar] ∨
            s = [tickChar, tickChar, tickChar] ∨
            s = ['\n', tickChar, tickChar, tickChar] := by
          rw [show ('\n' :: tickList : List Char)
              = '\n' :: tickChar :: tickChar :: tickChar :: [] by rfl] at hs₃
          rcases List.suffix_cons_iff.mp hs₃ with h | h
          · exact Or.inr (Or.inr (Or.inr (Or.inr h)))
          rcases List.suffix_cons_iff.mp h with h | h
          · exact Or.inr (Or.inr (Or.inr (Or.inl h)))
          rcases List.suffix_cons_iff.mp h with h | h
          · exact Or.inr (Or.inr (Or.inl h))
          rcases List.suffix_cons_iff.mp h with h | h
          · exact Or.inr (Or.inl h)
          · exact Or.inl (List.suffix_nil.mp h)
        rcases hcand with h | h | h | h | h <;> subst h <;> decide
      · rw [heq₂]
        rcases s₂ with _ | ⟨x, _ | ⟨y, _ | ⟨z, s₃⟩⟩⟩
        · exact absurd rfl hne₂
        · rw [show (([x] : List Char) ++ ('\n' :: tickList))
              = x :: '\n' :: tickList by simp]
          simp [tickJson_data, tickList, charsPrefix, hne]
        · rw [show (([x, y] : List Char) ++ ('\n' :: tickList))
              = x :: y :: '\n' :: tickList by simp]
          simp [tickJson_data, tickList, charsPrefix, hne]
        · rw [charsPrefix_append_sub]
          rw [charsPrefix_append_right tickList _ _ (by simp [tickList])]
          rw [hnolist _ hs₂₂]
          rfl
    · rw [heq₁]
      have hcand : s₁ = ['\n'] ∨ s₁ = [tickChar, '\n'] ∨
          s₁ = [tickChar, tickChar, '\n'] ∨
          s₁ = [tickChar, tickChar, tickChar, '\n'] := by
        rw [show (tickList ++ ['\n'] : List Char)
            = tickChar :: tickChar :: tickChar :: '\n' :: [] by rfl] at hs₁
        rcases List.suffix_cons_iff.mp hs₁ with h | h
        · exact Or.inr (Or.inr (Or.inr h))
        rcases List.suffix_cons_iff.mp h with h | h
        · exact Or.inr (Or.inr (Or.inl h))
        rcases List.suffix_cons_iff.mp h with h | h
        · exact Or.inr (Or.inl h)
        rcases suffix_single h with h | h
        · exact absurd h hne₁
        · exact Or.inl h
      rcases hcand with h | h | h | h <;> subst h <;>
        simp [tickJson_data, tickList, charsPrefix, hne, hnej]
  have hfence0 : findChars ("```\n".data ++ p ++ "\n```".data) ("```".data) 0
      = some 0 := by
    apply findChars_at_head
    rw [hdec, tick_data]
    rw [show ((tickList ++ ['\n']) ++ p ++ "\n```".data : List Char)
        = tickList ++ (['\n'] ++ p ++ "\n```".data) by simp]
    exact charsPrefix_self_append _ _
  have hdrop : ("```\n".data ++ p ++ "\n```".data).drop 3
      = '\n' :: (p ++ '\n' :: tickList) := by
    rw [hdec, hdec₂]
    rw [show ((tickList ++ ['\n']) ++ p ++ ('\n' :: tickList) : List Char)
        = tickList ++ ('\n' :: (p ++ '\n' :: tickList)) by simp]
    rw [List.drop_append_eq_append_drop]
    simp [tickList]
  have hfind : findChars (("```\n".data ++ p ++ "\n```".data).drop 3) ("```".data) 0
      = some (p.length + 2) := by
    rw [hdrop, tick_data]
    have h₂ := findTick_around p hp
    rw [show (('\n' :: p ++ '\n' :: tickList : List Char))
        = '\n' :: (p ++ '\n' :: tickList) by simp] at h₂
    exact h₂
  rw [extractChars_plain_found _ (p.length + 2) hjsonNone hfence0 hfind]
  rw [hdrop]
  rw [show p.length + 2 = (p.length + 1) + 1 from rfl]
  rw [List.take_succ_cons]
  rw [List.take_append_eq_append_take]
  rw [List.take_of_length_le (Nat.le_succ p.length)]
  rw [show p.length + 1 - p.length = 1 by omega]
  rw [show (List.take 1 ('\n' :: tickList) : List Char) = ['\n'] from rfl]
  rw [stripChars_cons_ws '\n' rfl, stripChars_concat_ws '\n' rfl]

theorem extractChars_unclosed (p : List Char) (hp : findChars p tickList 0 = none) :
    extractChars ("```json".data ++ p) = stripChars p.dropLast := by
  have hjson0 : findChars ("```json".data ++ p) ("```json".data) 0 = some 0 :=
    findChars_at_head _ _ 0 (charsPrefix_self_append _ _)
  have hdrop : ("```json".data ++ p).drop 7 = p := by
    rw [List.drop_append_eq_append_drop]
    simp
  have hnone : findChars (("```json".data ++ p).drop 7) ("```".data) 0 = none := by
    rw [hdrop, tick_data]
    exact hp
  rw [extractChars_json_unclosed _ hjson0 hnone]
  rw [hdrop]
  have hlen : ("```json".data ++ p).length - 1 - 7 = p.length - 1 := by simp
  rw [hlen, ← List.dropLast_eq_take]

/-- The cross-multiplied comparison `jnumLe` is the value comparison of
the represented rationals. -/
theorem jnumLe_iff (a b : JNum) : jnumLe a b ↔ a.toRat ≤ b.toRat := by
  unfold jnumLe JNum.toRat
  rw [div_le_div_iff₀ (by positivity) (by positivity)]
  constructor
  · intro h
    have h₂ : ((a.mant * pow10 b.dexp : ℤ) : ℚ) ≤ ((b.mant * pow10 a.dexp : ℤ) : ℚ) := by
      exact_mod_cast h
    push_cast [pow10, Int.ofNat_eq_coe] at h₂
    exact h₂
  · intro h
    have h₂ : ((a.mant * pow10 b.dexp : ℤ) : ℚ) ≤ ((b.mant * pow10 a.dexp : ℤ) : ℚ) := by
      push_cast [pow10, Int.ofNat_eq_coe]
      exact h
    exact_mod_cast h₂

/-! ## Payload equality across presentations -/

theorem containsSub_tick_none (p : String) (h : containsSub p "```" = false) :
    findChars p.data tickList 0 = none := by
  unfold containsSub at h
  rw [tick_data] at h
  cases he : findChars p.data tickList 0
  · rfl
  · rw [he] at h
    simp at h

theorem strip_fenced_json (p : String) :
    stripChars ("```json\n" ++ p ++ "\n```").data = ("```json\n" ++ p ++ "\n```").data := by
  have h₁ : ("```json\n".data : List Char)
      = tickChar :: [tickChar, tickChar, 'j', 's', 'o', 'n', '\n'] := by decide
  have h₂ : ("\n```".data : List Char) = ['\n', tickChar, tickChar] ++ [tickChar] := by
    decide
  have hdata : ("```json\n" ++ p ++ "\n```").data
      = tickChar :: (([tickChar, tickChar, 'j', 's', 'o', 'n', '\n'] ++ p.data
          ++ ['\n', tickChar, tickChar]) ++ [tickChar]) := by
    rw [String.data_append, String.data_append, h₁, h₂]
    simp
  rw [hdata]
  exact stripChars_nonws_ends tickChar tickChar rfl rfl _

theorem strip_fenced_plain (p : String) :
    stripChars ("```\n" ++ p ++ "\n```").data = ("```\n" ++ p ++ "\n```").data := by
  have h₁ : ("```\n".data : List Char) = tickChar :: [tickChar, tickChar, '\n'] := by decide
  have h₂ : ("\n```".data : List Char) = ['\n', tickChar, tickChar] ++ [tickChar] := by
    decide
  have hdata : ("```\n" ++ p ++ "\n```").data
      = tickChar :: (([tickChar, tickChar, '\n'] ++ p.data
          ++ ['\n', tickChar, tickChar]) ++ [tickChar]) := by
    rw [String.data_append, String.data_append, h₁, h₂]
    simp
  rw [hdata]
  exact stripChars_nonws_ends tickChar tickChar rfl rfl _

theorem adjPayload_raw (p : String) (hp : findChars p.data tickList 0 = none) :
    adjPayload p = pyStrip p := by
  unfold adjPayload pyStrip
  obtain ⟨a, b, hab⟩ := stripChars_infix p.data
  rw [extractChars_no_fence _ (findChars_none_inside tickList p.data _ hp a b hab)]

theorem adjPayload_fenced_json (p : String) (hp : findChars p.data tickList 0 = none) :
    adjPayload ("```json\n" ++ p ++ "\n```") = pyStrip p := by
  unfold adjPayload pyStrip
  rw [strip_fenced_json p]
  rw [String.data_append, String.data_append]
  rw [extractChars_fenced_json p.data hp]

theorem adjPayload_fenced_plain (p : String) (hp : findChars p.data tickList 0 = none) :
    adjPayload ("```\n" ++ p ++ "\n```") = pyStrip p := by
  unfold adjPayload pyStrip
  rw [strip_fenced_plain p]
  rw [String.data_append, String.data_append]
  rw [extractChars_fenced_plain p.data hp]

/-! ## C5 — fence tolerance -/

/-- Counterexample for C5: the claim quantifies over fenced blocks with
*a* language tag, but the extraction recognizes only the literal
```` ```json ```` marker: with tag `yaml` the tag text lands inside the
extracted region and parsing fails, while the same payload parses raw. -/
theorem c5_counterexample :
    parseAdjudicationResponse examplePayload = .ok exampleResult ∧
    parseAdjudicationResponse ("```yaml\n" ++ examplePayload ++ "\n```")
      = .parseError ("```yaml\n" ++ examplePayload ++ "\n```") :=
  ⟨rfl, rfl⟩

/-- C5 amended: for every payload that does not itself contain the fence
marker ```` ``` ````, the parser extracts the identical payload — and
hence returns the same successful `AdjudicationResult` — whether the
payload is given raw, wrapped in a fenced block with the `json` language
tag, or wrapped in a fenced block with no tag.  (With any other language
tag, or a payload containing the marker, the extraction differs — see the
counterexample.) -/
theorem c5_fence_tolerance :
    ∀ p : String, containsSub p "```" = false →
      adjPayload ("```json\n" ++ p ++ "\n```") = adjPayload p ∧
      adjPayload ("```\n" ++ p ++ "\n```") = adjPayload p ∧
      (∀ r, parseAdjudicationResponse ("```json\n" ++ p ++ "\n```") = .ok r ↔
        parseAdjudicationResponse p = .ok r) ∧
      (∀ r, parseAdjudicationResponse ("```\n" ++ p ++ "\n```") = .ok r ↔
        parseAdjudicationResponse p = .ok r) := by
  intro p hc
  have hp : findChars p.data tickList 0 = none := containsSub_tick_none p hc
  have hjson : adjPayload ("```json\n" ++ p ++ "\n```") = adjPayload p := by
    rw [adjPayload_fenced_json p hp, adjPayload_raw p hp]
  have hplain : adjPayload ("```\n" ++ p ++ "\n```") = adjPayload p := by
    rw [adjPayload_fenced_plain p hp, adjPayload_raw p hp]
  have hok : ∀ x y : String, adjPayload x = adjPayload y →
      ∀ r, parseAdjudicationResponse x = .ok r ↔ parseAdjudicationResponse y = .ok r := by
    intro x y hxy r
    unfold parseAdjudicationResponse
    rw [hxy]
    rcases hj : jsonLoads (adjPayload y) with _ | j
    · simp
    · rcases hv : validateAdjudication j with _ | r₂ <;> simp
  exact ⟨hjson, hplain, hok _ _ hjson, hok _ _ hplain⟩

/-- Witness for C5: the spec's example payload parses to the same result
raw, fenced with the `json` tag, and fenced without a tag. -/
theorem c5_witness :
    parseAdjudicationResponse ("```json\n" ++ examplePayload ++ "\n```")
      = .ok exampleResult ∧
    parseAdjudicationResponse ("```\n" ++ examplePayload ++ "\n```")
      = .ok exampleResult ∧
    parseAdjudicationResponse examplePayload = .ok exampleResult :=
  ⟨((c5_fence_tolerance examplePayload rfl).2.2.1 exampleResult).mpr rfl,
    ((c5_fence_tolerance examplePayload rfl).2.2.2 exampleResult).mpr rfl,
    rfl⟩

/-! ## C6 — unclosed fences and empty fences -/

/-- Counterexample for C6: a response that opens a ```` ```json ```` fence
and never closes it, yet adjudication parsing SUCCEEDS: Python's
`find` returns `-1` for the missing closing marker and `text[start:-1]`
merely drops the final character, which here is a redundant brace. -/
theorem c6_counterexample :
    containsSub sneakyResponse "```json" = true ∧
    findChars (sneakyResponse.data.drop 7) "```".data 0 = none ∧
    parseAdjudicationResponse sneakyResponse
      = .ok ⟨"tie", ⟨0, 0⟩, ⟨0, 0⟩, "x"⟩ :=
  ⟨rfl, rfl, rfl⟩

/-- C6 amended: when a ```` ```json ```` fence is opened but never
closed, the parser takes the text from after the opening marker up to but
excluding the final character; parsing then fails with
`AdjudicationParseError` (carrying the raw response) whenever that
truncated text is not valid JSON — in particular when the response is
exactly the fence marker followed by the payload — but not for every
input (see the counterexample).  Fence markers with no content between
them always yield an empty payload, which fails with
`AdjudicationParseError`. -/
theorem c6_unclosed_fence :
    (∀ r : String, jsonLoads (adjPayload r) = none →
      parseAdjudicationResponse r = .parseError r) ∧
    (∀ r : String, adjPayload r = "" → parseAdjudicationResponse r = .parseError r) ∧
    (∀ p : String, containsSub p "```" = false →
      pyStrip ("```json" ++ p) = "```json" ++ p →
      adjPayload ("```json" ++ p) = String.mk (stripChars p.data.dropLast)) ∧
    parseAdjudicationResponse "``````" = .parseError "``````" ∧
    parseAdjudicationResponse "```json```" = .parseError "```json```" ∧
    parseAdjudicationResponse ("```json\n" ++ examplePayload)
      = .parseError ("```json\n" ++ examplePayload) := by
  refine ⟨?_, ?_, ?_, rfl, rfl, rfl⟩
  · intro r h
    unfold parseAdjudicationResponse
    rw [h]
  · intro r h
    unfold parseAdjudicationResponse
    rw [h]
    rfl
  · intro p hc hstrip
    have hp : findChars p.data tickList 0 = none := containsSub_tick_none p hc
    have hstripdata : stripChars ("```json" ++ p).data = ("```json" ++ p).data := by
      have h₂ := congrArg String.data hstrip
      simpa [pyStrip] using h₂
    unfold adjPayload
    rw [hstripdata, String.data_append, extractChars_unclosed p.data hp]

/-- Witness for C6: malformed raw text fails with the raw-carrying error;
the truncated-by-one-extraction at the example payload. -/
theorem c6_witness :
    parseAdjudicationResponse "\x7bnot json" = .parseError "\x7bnot json" ∧
    parseAdjudicationResponse "``` ```" = .parseError "``` ```" ∧
    adjPayload ("```json" ++ examplePayload)
      = String.mk (stripChars examplePayload.data.dropLast) :=
  ⟨c6_unclosed_fence.1 "\x7bnot json" rfl,
    c6_unclosed_fence.2.1 "``` ```" rfl,
    c6_unclosed_fence.2.2.1 examplePayload rfl rfl⟩

/-! ## C2 — validation and error taxonomy of adjudication parsing -/

/-- Counterexample for C2: a payload with all four fields but scores far
outside 0–100 (150 and −5) is returned as a SUCCESSFUL
`AdjudicationResult` by `adjudicate_debate` — no range validation exists;
and a payload missing three of the four required fields fails with the
uncaught pydantic validation error, not with the raw-carrying
`AdjudicationParseError` the claim requires. -/
theorem c2_counterexample :
    adjudicate_debate (netConst outOfRangePayload) [("d1", testCompletedDebate)] "d1"
      "gpt-4o" testKeys = .ok ⟨"for", ⟨150, 0⟩, ⟨-5, 0⟩, "r"⟩ ∧
    ¬ jnumLe ⟨150, 0⟩ (JNum.ofInt 100) ∧
    ¬ jnumLe (JNum.ofInt 0) ⟨-5, 0⟩ ∧
    parseAdjudicationResponse missingFieldPayload = .uncaughtError ∧
    (∀ s, ¬ parseAdjudicationResponse missingFieldPayload = .parseError s) := by
  refine ⟨rfl, by decide, by decide, rfl, ?_⟩
  intro s h
  rw [show parseAdjudicationResponse missingFieldPayload = .uncaughtError from rfl] at h
  exact AdjOutcome.noConfusion h

/-- C2 amended: a malformed payload (anything `json.loads` rejects) fails
with `AdjudicationParseError` carrying exactly the raw response text, and
that is the only input class producing it; a payload that parses as JSON
but fails the pydantic field validation (missing field, ill-typed field,
bad `winner` literal, non-object payload) raises an error that the
`except` clause does not catch — not `AdjudicationParseError`, and
carrying no raw text; and when all four fields are present and
well-typed the result is successful with the scores taken verbatim: no
0–100 range check exists, so out-of-range scores are accepted. -/
theorem c2_parse_validation_split :
    (∀ r s : String, parseAdjudicationResponse r = .parseError s → s = r) ∧
    (∀ r : String, jsonLoads (adjPayload r) = none ↔
      parseAdjudicationResponse r = .parseError r) ∧
    parseAdjudicationResponse missingFieldPayload = .uncaughtError ∧
    (∀ (w : String) (fs as₂ : JNum) (rs : String),
      w = "for" ∨ w = "against" ∨ w = "tie" →
      validateAdjudication (.jobj [("winner", .jstr w), ("for_score", .jnum fs),
        ("against_score", .jnum as₂), ("reasoning", .jstr rs)])
        = some ⟨w, fs, as₂, rs⟩) ∧
    (∀ (net : Net) (store : Store) (id model : String) (keys : ApiKeys)
        (d : DebateState) (r : String),
      get_debate store id = some d → d.status = "completed" →
      generate_response net model adjSystemPrompt
        [⟨"user", get_adjudicator_prompt d.proposition d.messages⟩] keys = .ok r →
      adjudicate_debate net store id model keys =
        (match parseAdjudicationResponse r with
          | .ok x => .ok x
          | .parseError s => .error (.parseFailure s)
          | .uncaughtError => .error .validationFailure)) := by
  refine ⟨?_, ?_, rfl, ?_, ?_⟩
  · intro r s h
    unfold parseAdjudicationResponse at h
    rcases hj : jsonLoads (adjPayload r) with _ | j
    · simp only [hj] at h
      injection h with h₂
      exact h₂.symm
    · rcases hv : validateAdjudication j with _ | x <;> simp [hj, hv] at h
  · intro r
    constructor
    · intro h
      unfold parseAdjudicationResponse
      rw [h]
    · intro h
      unfold parseAdjudicationResponse at h
      rcases hj : jsonLoads (adjPayload r) with _ | j
      · rfl
      · rcases hv : validateAdjudication j with _ | x <;> simp [hj, hv] at h
  · intro w fs as₂ rs hw
    unfold validateAdjudication
    simp [dictLookup]
    rcases hw with h | h | h <;> subst h <;> simp
  · intro net store id model keys d r hget hst hgen
    unfold adjudicate_debate
    rw [hget]
    simp only [hst, if_true, hgen]

/-- Witness for C2's amended theorem at concrete inputs. -/
theorem c2_witness :
    parseAdjudicationResponse "x" = .parseError "x" ∧
    validateAdjudication (.jobj [("winner", .jstr "for"), ("for_score", .jnum ⟨150, 0⟩),
      ("against_score", .jnum ⟨-5, 0⟩), ("reasoning", .jstr "r")])
      = some ⟨"for", ⟨150, 0⟩, ⟨-5, 0⟩, "r"⟩ ∧
    adjudicate_debate (netConst examplePayload) [("d1", testCompletedDebate)] "d1"
      "gpt-4o" testKeys = .ok exampleResult :=
  ⟨(c2_parse_validation_split.2.1 "x").mp rfl,
    c2_parse_validation_split.2.2.2.1 "for" ⟨150, 0⟩ ⟨-5, 0⟩ "r" (Or.inl rfl),
    c2_parse_validation_split.2.2.2.2 (netConst examplePayload)
      [("d1", testCompletedDebate)] "d1" "gpt-4o" testKeys testCompletedDebate
      examplePayload rfl rfl rfl⟩

end Debater
